import Mathlib

/-!
# Skeletal trapezoidation graph: a verification development

This file formalises the half-edge mesh ("skeletal trapezoidation graph")
of the slicing engine, together with its domain predicates, the
tolerance-based edge-collapse pass and the node/rib insertion algorithms,
and proves the documented invariants and behavioural properties about them.

The repository ships only the declarations of this subsystem
(`src/include/SkeletalTrapezoidationGraph.h`); the function bodies live in
translation units that are not part of the source tree.  All operational
definitions below are therefore modelled from the specification
(`spec.md`), as close to its words as possible; each such definition says
so in its doc comment.
-/

set_option linter.unusedVariables false

namespace STG

/-- A 2D integer point (the engine's `Point` with `coord_t` coordinates). -/
abbrev Pt := Int × Int

/-- Coordinate-wise subtraction of points. -/
def psub (p q : Pt) : Pt := (p.1 - q.1, p.2 - q.2)

/-- Dot product of two integer vectors. -/
def pdot (p q : Pt) : Int := p.1 * q.1 + p.2 * q.2

/-- 2D cross product (z-component) of two integer vectors. -/
def pcross (p q : Pt) : Int := p.1 * q.2 - p.2 * q.1

/-- Squared Euclidean length of an integer vector (the engine's `vSize2`). -/
def vSize2 (p : Pt) : Int := p.1 * p.1 + p.2 * p.2

/-- Fuel-driven integer square root by upward search; shown equal to
`Nat.sqrt` in `isqrt_eq`.  Unlike `Nat.sqrt` it is structurally
recursive, so it evaluates inside the kernel. -/
def sqrtLin : Nat → Nat → Nat → Nat
  | 0, k, _ => k
  | fuel + 1, k, n => if (k + 1) * (k + 1) ≤ n then sqrtLin fuel (k + 1) n else k

/-- Executable integer square root. -/
def isqrt (n : Nat) : Nat := sqrtLin n 0 n

/-- Integer Euclidean length of a vector (the engine's `vSize`):
the integer square root of the squared length. -/
def vSize (p : Pt) : Nat := isqrt (vSize2 p).toNat

/-- Modelled from the spec: the edge-role tag carried by a half-edge
("an edge-role tag such as ordinary-skeleton-edge, extra-support edge,
or rib edge", spec §3). -/
inductive EdgeRole where
  | normal
  | support
  | rib
deriving DecidableEq, Repr

/-- Modelled from the spec: a node record of the mesh ("a 2D
integer-coordinate position plus a domain payload: distance-to-boundary
..., a classification ...", spec §3).  The back-link to one incident
outgoing half-edge is not needed by any stated invariant and is omitted. -/
structure STNode where
  pos : Pt
  dtb : Int
  beadCount : Int
deriving DecidableEq, Repr

/-- Modelled from the spec: a half-edge record ("directed edge from one
node to another, carrying: a twin ..., a next and previous half-edge
around the same face/loop, and a domain payload", spec §3).  Nodes and
edges are addressed by indices into growable storage, as prescribed by
the design notes (spec §9).  `source` abstracts the lineage walk of
`getSource` as the index of the boundary segment the edge derives from. -/
structure STEdge where
  src : Nat
  dst : Nat
  twin : Nat
  next : Option Nat
  prev : Option Nat
  role : EdgeRole
  central : Bool
  source : Nat
deriving DecidableEq, Repr

/-- Modelled from the spec: the graph container that exclusively owns all
nodes and half-edges (spec §3, §4.1).  Removal uses tombstoning (`none`
slots) so that indices stay stable, per the design notes (spec §9).
`poly` is the input boundary polygon (spec §6). -/
structure STGraph where
  nodes : List (Option STNode)
  edges : List (Option STEdge)
  poly : List Pt
deriving DecidableEq, Repr

/-- Look up a live edge slot. -/
def getE (g : STGraph) (i : Nat) : Option STEdge :=
  match g.edges[i]? with
  | some (some e) => some e
  | _ => none

/-- Look up a live node slot. -/
def getN (g : STGraph) (n : Nat) : Option STNode :=
  match g.nodes[n]? with
  | some (some v) => some v
  | _ => none

/-- Whether edge slot `i` is live. -/
def liveE (g : STGraph) (i : Nat) : Bool := (getE g i).isSome

/-- Position of node `n` (default origin for dead slots). -/
def posN (g : STGraph) (n : Nat) : Pt :=
  match getN g n with
  | some v => v.pos
  | none => (0, 0)

/-- Distance-to-boundary of node `n` (default `0` for dead slots). -/
def dtbN (g : STGraph) (n : Nat) : Int :=
  match getN g n with
  | some v => v.dtb
  | none => 0

/-- Length of edge `i`: integer Euclidean distance between its endpoint
positions (`0` for dead slots — spec §4.3 measures stored edges only). -/
def elen (g : STGraph) (i : Nat) : Nat :=
  match getE g i with
  | some e => vSize (psub (posN g e.dst) (posN g e.src))
  | none => 0

/-- Rewrite edge slot `i` through `f` (dead slots unchanged). -/
def updE (g : STGraph) (i : Nat) (f : STEdge → STEdge) : STGraph :=
  match getE g i with
  | some e => { g with edges := g.edges.set i (some (f e)) }
  | none => g

/-- Overwrite the `next` pointer of edge slot `i`. -/
def setNextE (g : STGraph) (i : Nat) (v : Option Nat) : STGraph :=
  updE g i (fun e => { e with next := v })

/-- Overwrite the `prev` pointer of edge slot `i`. -/
def setPrevE (g : STGraph) (i : Nat) (v : Option Nat) : STGraph :=
  updE g i (fun e => { e with prev := v })

/-- Tombstone edge slot `i` (no-op on dead slots). -/
def killE (g : STGraph) (i : Nat) : STGraph :=
  match getE g i with
  | some _ => { g with edges := g.edges.set i none }
  | none => g

/-- Tombstone node slot `n` (no-op on dead slots). -/
def killN (g : STGraph) (n : Nat) : STGraph :=
  match getN g n with
  | some _ => { g with nodes := g.nodes.set n none }
  | none => g

/-- The number of live edge slots in the graph. -/
def liveCount (g : STGraph) : Nat :=
  ((List.range g.edges.length).filter (fun i => liveE g i)).length

/-- The pointer-invariant check for a single edge slot (spec §3):
`twin(twin(e)) == e`, `next(prev(e)) == e`, `prev(next(e)) == e`,
with all referenced slots live. -/
def edgeOK (g : STGraph) (i : Nat) : Bool :=
  match getE g i with
  | none => true
  | some e =>
    (match getE g e.twin with
     | some et => et.twin == i
     | none => false) &&
    (match e.prev with
     | none => true
     | some p =>
       match getE g p with
       | some ep => ep.next == some i
       | none => false) &&
    (match e.next with
     | none => true
     | some n =>
       match getE g n with
       | some en => en.prev == some i
       | none => false)

/-- The half-edge pointer invariants of spec §3, for every stored edge. -/
def WF (g : STGraph) : Prop :=
  ∀ i, i < g.edges.length → edgeOK g i = true

instance (g : STGraph) : Decidable (WF g) := by
  unfold WF; infer_instance

end STG

namespace STG

/-! ## Domain predicates (spec §4.2)

Modelled from the spec: "pure read-only traversal queries over the mesh
that interpret the distance-to-boundary field".  Each predicate exists in
two forms: a pure one, and a `Run` form that explicitly threads the graph
state through the traversal the way the imperative code walks the mesh;
the frame property (spec §2 "pure read-only") is proved about the `Run`
forms. -/

/-- Source node of edge slot `j` (`0` for dead slots). -/
def srcOf (g : STGraph) (j : Nat) : Nat :=
  match getE g j with
  | some e => e.src
  | none => 0

/-- Destination node of edge slot `j` (`0` for dead slots). -/
def dstOf (g : STGraph) (j : Nat) : Nat :=
  match getE g j with
  | some e => e.dst
  | none => 0

/-- Twin slot of edge slot `j` (itself for dead slots). -/
def twinOf (g : STGraph) (j : Nat) : Nat :=
  match getE g j with
  | some e => e.twin
  | none => j

/-- Central mark of edge slot `j`. -/
def centralOf (g : STGraph) (j : Nat) : Bool :=
  match getE g j with
  | some e => e.central
  | none => false

/-- All live edges leaving node `n`, in slot order. -/
def outgoing (g : STGraph) (n : Nat) : List Nat :=
  (List.range g.edges.length).filter (fun j => liveE g j && srcOf g j == n)

/-- All live edges leaving node `b` except the slot `back`
(the reverse of the edge we arrived through). -/
def outgoingExcept (g : STGraph) (b : Nat) (back : Nat) : List Nat :=
  (List.range g.edges.length).filter
    (fun j => j != back && liveE g j && srcOf g j == b)

/-- First live edge out of `b` (other than `back`) whose destination has a
strictly greater distance-to-boundary than `b`: a strict increase of the
chain (spec §4.2). -/
def findUpward (g : STGraph) (b : Nat) (back : Nat) : Option Nat :=
  (List.range g.edges.length).find?
    (fun j => j != back && liveE g j && srcOf g j == b &&
      decide (dtbN g b < dtbN g (dstOf g j)))

/-- First live equidistant continuation out of `b` (other than `back`)
whose destination is a valid, not yet visited node: "the unique or first
outgoing equidistant continuation" of spec §4.2, filtered through the
visited-set of spec §7/§9. -/
def findEqUnvisited (g : STGraph) (vis : List Nat) (b : Nat) (back : Nat) :
    Option Nat :=
  (List.range g.edges.length).find?
    (fun j => j != back && liveE g j && srcOf g j == b &&
      decide (dtbN g (dstOf g j) = dtbN g b) &&
      !(vis.contains (dstOf g j)) && decide (dstOf g j < g.nodes.length))

/-- Modelled from the spec: the equidistant-chain walk shared by
`isUpward` and `distToGoUp` (spec §4.2): from plateau node `b` (reached
through an edge whose reverse is slot `back`, having traversed `acc`
length so far), stop with the accumulated length at a strict increase,
follow the first unvisited equidistant continuation otherwise, and give
up at a dead end.  Termination is by fuel; the visited-set guarantees
the fuel `g.nodes.length + 1` is never exhausted (spec §7, §9).
The second component is the far-end node at which the walk stopped. -/
def walkFuel (g : STGraph) : Nat → List Nat → Nat → Nat → Nat → Option Nat × Nat
  | 0, _, b, _, _ => (none, b)
  | f + 1, vis, b, back, acc =>
    match findUpward g b back with
    | some j => (some (acc + elen g j), b)
    | none =>
      match findEqUnvisited g vis b back with
      | some j => walkFuel g f (dstOf g j :: vis) (dstOf g j) (twinOf g j)
          (acc + elen g j)
      | none => (none, b)

/-- Modelled from the spec: entry point of the chain walk for an edge
(spec §4.2): a strict increase along the edge itself succeeds at once
(the distance "includes the length of the edge"), a strict decrease
fails at once, and an equidistant edge starts the plateau walk at its
destination. -/
def chainWalk (g : STGraph) (i : Nat) : Option Nat × Nat :=
  match getE g i with
  | none => (none, 0)
  | some e =>
    if dtbN g e.src < dtbN g e.dst then (some (elen g i), e.src)
    else if dtbN g e.dst < dtbN g e.src then (none, e.src)
    else walkFuel g (g.nodes.length + 1) [e.src, e.dst] e.dst e.twin (elen g i)

/-- Modelled from the spec: `distToGoUp` (spec §4.2): "walks the
equidistant chain starting at e, accumulating traversed edge length,
until a strict increase is found (returns the accumulated length,
including e's own length) or the chain dead-ends (returns no value)". -/
def distToGoUp (g : STGraph) (i : Nat) : Option Nat := (chainWalk g i).1

/-- The node at the far end of the equidistant chain of edge `i`:
where the chain walk of `distToGoUp`/`isUpward` stopped. -/
def farEnd (g : STGraph) (i : Nat) : Nat := (chainWalk g i).2

/-- Modelled from the spec: `isUpward` (spec §4.2): true iff the
distance-to-boundary strictly increases along the edge, looking through
the chain of equidistant edges beyond it; the chain walk succeeds
exactly when it finds a strict increase. -/
def isUpward (g : STGraph) (i : Nat) : Bool := (distToGoUp g i).isSome

/-- Modelled from the spec: the recursive worker of `canGoUp` (spec §4.2):
a strict increase along the edge succeeds, a strict decrease fails, an
equidistant step fails under `strict` and otherwise explores every
outgoing continuation of the plateau, with visited-node tracking for
termination (spec §7). -/
def canGoUpFuel (g : STGraph) (strict : Bool) : Nat → List Nat → Nat → Bool
  | 0, _, _ => false
  | f + 1, vis, i =>
    match getE g i with
    | none => false
    | some e =>
      if dtbN g e.src < dtbN g e.dst then true
      else if dtbN g e.dst < dtbN g e.src || strict then false
      else if vis.contains e.dst || decide (g.nodes.length ≤ e.dst) then false
      else (outgoingExcept g e.dst e.twin).any
        (fun j => canGoUpFuel g strict f (e.dst :: vis) j)

/-- Modelled from the spec: `canGoUp(e, strict)` (spec §4.2), with the
fuel set to one more than the number of nodes, which the visited-set
makes sufficient (spec §7). -/
def canGoUp (g : STGraph) (i : Nat) (strict : Bool) : Bool :=
  canGoUpFuel g strict (g.nodes.length + 1) [] i

/-- Modelled from the spec: `isLocalMaximum(n, strict)` (spec §4.2):
"true iff distance-to-boundary(n) is greater than (strict) or
greater-or-equal than (non-strict) the distance-to-boundary of every
node reachable by a single outgoing edge from n". -/
def isLocalMaximum (g : STGraph) (n : Nat) (strict : Bool) : Bool :=
  (outgoing g n).all (fun j =>
    if strict then decide (dtbN g (dstOf g j) < dtbN g n)
    else decide (dtbN g (dstOf g j) ≤ dtbN g n))

/-- Modelled from the spec: `isMultiIntersection(n)` (spec §4.2): "true
iff n has more than two distinct incident skeleton branches converging";
skeleton branches are the marked-central edges (cf. `isCentral`). -/
def isMultiIntersection (g : STGraph) (n : Nat) : Bool :=
  decide (2 < ((outgoing g n).filter (fun j => centralOf g j)).length)

/-- Modelled from the spec: `isCentral(n)` (spec §4.2): "true iff n lies
on a marked-central branch of the skeleton". -/
def isCentral (g : STGraph) (n : Nat) : Bool :=
  (outgoing g n).any (fun j => centralOf g j)

end STG

namespace STG

/-! ## State-threading (`Run`) forms of the predicates -/

/-- Short-circuit disjunction over a list, threading the graph state
through each step like the imperative traversal does. -/
def anyThread (step : STGraph → Nat → Bool × STGraph) :
    List Nat → STGraph → Bool × STGraph
  | [], g => (false, g)
  | j :: js, g =>
    let r := step g j
    if r.1 then (true, r.2) else anyThread step js r.2

/-- Short-circuit conjunction over a list, threading the graph state. -/
def allThread (step : STGraph → Nat → Bool × STGraph) :
    List Nat → STGraph → Bool × STGraph
  | [], g => (true, g)
  | j :: js, g =>
    let r := step g j
    if r.1 then allThread step js r.2 else (false, r.2)

/-- Counting loop over a list, threading the graph state. -/
def countThread (step : STGraph → Nat → Bool × STGraph) :
    List Nat → STGraph → Nat × STGraph
  | [], g => (0, g)
  | j :: js, g =>
    let r := step g j
    let rest := countThread step js r.2
    ((if r.1 then 1 else 0) + rest.1, rest.2)

/-- The chain walk of `walkFuel`, threading the graph state through the
traversal. -/
def walkFuelRun : Nat → List Nat → Nat → Nat → Nat → STGraph →
    (Option Nat × Nat) × STGraph
  | 0, _, b, _, _, g => ((none, b), g)
  | f + 1, vis, b, back, acc, g =>
    match findUpward g b back with
    | some j => ((some (acc + elen g j), b), g)
    | none =>
      match findEqUnvisited g vis b back with
      | some j => walkFuelRun f (dstOf g j :: vis) (dstOf g j) (twinOf g j)
          (acc + elen g j) g
      | none => ((none, b), g)

/-- `chainWalk`, threading the graph state. -/
def chainWalkRun (g : STGraph) (i : Nat) : (Option Nat × Nat) × STGraph :=
  match getE g i with
  | none => ((none, 0), g)
  | some e =>
    if dtbN g e.src < dtbN g e.dst then ((some (elen g i), e.src), g)
    else if dtbN g e.dst < dtbN g e.src then ((none, e.src), g)
    else walkFuelRun (g.nodes.length + 1) [e.src, e.dst] e.dst e.twin
      (elen g i) g

/-- `distToGoUp`, threading the graph state. -/
def distToGoUpRun (g : STGraph) (i : Nat) : Option Nat × STGraph :=
  let r := chainWalkRun g i
  (r.1.1, r.2)

/-- `isUpward`, threading the graph state. -/
def isUpwardRun (g : STGraph) (i : Nat) : Bool × STGraph :=
  let r := chainWalkRun g i
  (r.1.1.isSome, r.2)

/-- The recursive worker of `canGoUp`, threading the graph state through
the whole exploration (the plateau fan-out threads it through
`anyThread`). -/
def canGoUpRunFuel (strict : Bool) :
    Nat → List Nat → Nat → STGraph → Bool × STGraph
  | 0, _, _, g => (false, g)
  | f + 1, vis, i, g =>
    match getE g i with
    | none => (false, g)
    | some e =>
      if dtbN g e.src < dtbN g e.dst then (true, g)
      else if dtbN g e.dst < dtbN g e.src || strict then (false, g)
      else if vis.contains e.dst || decide (g.nodes.length ≤ e.dst) then
        (false, g)
      else anyThread (fun h j => canGoUpRunFuel strict f (e.dst :: vis) j h)
        (outgoingExcept g e.dst e.twin) g

/-- `canGoUp`, threading the graph state. -/
def canGoUpRun (g : STGraph) (i : Nat) (strict : Bool) : Bool × STGraph :=
  canGoUpRunFuel strict (g.nodes.length + 1) [] i g

/-- `isLocalMaximum`, threading the graph state. -/
def isLocalMaximumRun (g : STGraph) (n : Nat) (strict : Bool) :
    Bool × STGraph :=
  allThread (fun h j =>
      ((if strict then decide (dtbN h (dstOf h j) < dtbN h n)
        else decide (dtbN h (dstOf h j) ≤ dtbN h n)), h))
    (outgoing g n) g

/-- `isMultiIntersection`, threading the graph state. -/
def isMultiIntersectionRun (g : STGraph) (n : Nat) : Bool × STGraph :=
  let r := countThread (fun h j => (centralOf h j, h)) (outgoing g n) g
  (decide (2 < r.1), r.2)

/-- `isCentral`, threading the graph state. -/
def isCentralRun (g : STGraph) (n : Nat) : Bool × STGraph :=
  anyThread (fun h j => (centralOf h j, h)) (outgoing g n) g

end STG

namespace STG

/-! ## The edge-collapse pass (spec §4.3) -/

/-- `next` pointer of edge slot `j` (`none` for dead slots). -/
def nextOf (g : STGraph) (j : Nat) : Option Nat :=
  match getE g j with
  | some e => e.next
  | none => none

/-- Modelled from the spec: splice one half-edge out of its face loop,
"re-link next/prev pointers of all edges that were adjacent ... so the
loop structure remains unbroken" (spec §4.3). -/
def spliceOut (g : STGraph) (i : Nat) : STGraph :=
  match getE g i with
  | none => g
  | some e =>
    let g1 := match e.prev with
      | some p => setNextE g p e.next
      | none => g
    match e.next with
    | some n => setPrevE g1 n e.prev
    | none => g1

/-- Modelled from the spec: remove one undirected edge, i.e. a half-edge
and its twin ("Removal of an edge must also remove its twin", spec §4.1),
splicing both out of their loops first. -/
def removeEdgePair (g : STGraph) (i : Nat) : STGraph :=
  match getE g i with
  | none => g
  | some e =>
    if e.twin = i then killE (spliceOut g i) i
    else killE (killE (spliceOut (spliceOut g i) e.twin) e.twin) i

/-- Redirect the endpoints of one edge record from node `b` to node `a`. -/
def renameNode (b a : Nat) (e : STEdge) : STEdge :=
  { e with
    src := if e.src = b then a else e.src,
    dst := if e.dst = b then a else e.dst }

/-- Modelled from the spec: "re-target every half-edge that pointed at the
removed node so it now points at the survivor" (spec §4.3). -/
def retargetNode (g : STGraph) (b a : Nat) : STGraph :=
  { g with edges := g.edges.map (Option.map (renameNode b a)) }

/-- Modelled from the spec: whether the undirected edge at slot `i` is a
protected structural/"support" edge ("Edges tagged as
structural/'support' edges are protected from individual collapse",
spec §4.3); the tag protects both half-edges of the pair. -/
def protPair (g : STGraph) (i : Nat) : Bool :=
  match getE g i with
  | none => false
  | some e =>
    e.role == EdgeRole.support ||
      (match getE g e.twin with
       | some et => et.role == EdgeRole.support
       | none => false)

/-- Whether edge `i` is shorter than the snap distance `d`. -/
def shortE (g : STGraph) (d : Int) (i : Nat) : Bool :=
  decide ((elen g i : Int) < d)

/-- The enclosing quad of edge `i`: the face loop `i → next i → ... `
closing back at `i` after exactly four steps (spec §4.3, GLOSSARY
"Quad"). -/
def quadSlotsOf (g : STGraph) (i : Nat) : Option (List Nat) :=
  match nextOf g i with
  | none => none
  | some i2 =>
    match nextOf g i2 with
    | none => none
    | some i3 =>
      match nextOf g i3 with
      | none => none
      | some i4 =>
        match nextOf g i4 with
        | some i5 => if i5 = i then some [i, i2, i3, i4] else none
        | none => none

/-- Modelled from the spec: "all edges of its enclosing quad also qualify
for collapse" (spec §4.3): the face loop of `i` is a quad and all its
edges are below the snap distance. -/
def quadOK (g : STGraph) (d : Int) (i : Nat) : Bool :=
  match quadSlotsOf g i with
  | none => false
  | some q => q.all (shortE g d)

/-- Modelled from the spec: scan for the first edge eligible for collapse
(spec §4.3): below the snap distance, and either not protected or with a
fully collapsible enclosing quad.  The second component records whether
the whole quad is to be collapsed. -/
def findEligible (g : STGraph) (d : Int) : Option (Nat × Bool) :=
  ((List.range g.edges.length).find? (fun i =>
      liveE g i && shortE g d i && (!protPair g i || quadOK g d i))).map
    (fun i => (i, protPair g i))

/-- Modelled from the spec: "detect and remove any resulting degenerate
self-loop" (spec §4.3 step 3).  Protected edges stay protected from this
individual removal; duplicate parallel pairs are kept, as permitted by
the escape clause "unless duplication is structurally required by the
mesh's face structure". -/
def cleanupSelfLoops (g : STGraph) : STGraph :=
  (List.range g.edges.length).foldl
    (fun h j =>
      if liveE h j && srcOf h j == dstOf h j && !protPair h j then
        removeEdgePair h j
      else h)
    g

/-- Modelled from the spec: collapse a single non-protected short edge
and its twin into one surviving node (spec §4.3 step 2); the survivor is
the `from` endpoint (the tie-break is "a documented, deterministic
implementation choice", spec §9). -/
def singleStep (g : STGraph) (i : Nat) : STGraph :=
  match getE g i with
  | none => g
  | some e =>
    let g1 := removeEdgePair g i
    let g2 :=
      if e.dst = e.src then g1
      else killN (retargetNode g1 e.dst e.src) e.dst
    cleanupSelfLoops g2

/-- Modelled from the spec: "the whole quad collapses to a single node
atomically" (spec §4.3 step 1): all four edge pairs of the quad are
removed and all quad nodes are merged into the survivor. -/
def quadStep (g : STGraph) (i : Nat) : STGraph :=
  match quadSlotsOf g i with
  | none => g
  | some q =>
    let s := srcOf g i
    let ns := ((q.map (srcOf g) ++ q.map (dstOf g)).filter
      (fun n => n != s)).dedup
    let g1 := q.foldl removeEdgePair g
    let g2 := ns.foldl (fun h n => killN (retargetNode h n s) n) g1
    cleanupSelfLoops g2

/-- Modelled from the spec: the collapse fixed-point loop (spec §4.3
step 4): repeat until no eligible edge remains, "bound ... by the
strictly decreasing edge count" (here: fuel, set to one more than the
live-edge count by the wrapper). -/
def collapseFuel : Nat → STGraph → Int → STGraph
  | 0, g, _ => g
  | f + 1, g, d =>
    match findEligible g d with
    | none => g
    | some (i, false) => collapseFuel f (singleStep g i) d
    | some (i, true) => collapseFuel f (quadStep g i) d

/-- Modelled from the spec: `collapseSmallEdges(snap_dist)` (spec §4.3,
header line 86), with the default snap distance 5. -/
def collapseSmallEdges (g : STGraph) (d : Int := 5) : STGraph :=
  collapseFuel (liveCount g + 1) g d

end STG

namespace STG

/-! ## Node and rib insertion (spec §4.4) -/

/-- Modelled from the spec: the rewiring core of `insertNode`/`insertRib`
(spec §4.4): split edge slot `i` at the already-created node `n`,
"rewiring edge into two consecutive edges sharing the new node".  Slot
`i` keeps pointing at the original `to` node ("so callers holding a
reference to 'the edge ending at X' remain valid"); the new first half
and the two new twin halves are appended.  Returns the new graph with
the first and last edge of the replacement chain, or `none` when the
edge is unsuitable (dead, twin-inconsistent or self-referential), in
which case the caller leaves the graph untouched (spec §7). -/
def splitEdgeAt (g : STGraph) (i : Nat) (n : Nat) :
    Option (STGraph × Nat × Nat) :=
  match getE g i with
  | none => none
  | some e =>
    match getE g e.twin with
    | none => none
    | some et =>
      if e.twin = i || et.twin ≠ i || e.prev = some i || e.next = some i ||
          et.prev = some e.twin || et.next = some e.twin then none
      else
        let it := e.twin
        let L := g.edges.length
        let e1 : STEdge :=
          { src := e.src, dst := n, twin := L + 1, next := some i,
            prev := if e.prev = some it then some (L + 1) else e.prev,
            role := e.role, central := e.central, source := e.source }
        let e1t : STEdge :=
          { src := n, dst := et.dst, twin := L,
            next := if et.next = some i then some L else et.next,
            prev := some it,
            role := et.role, central := et.central, source := et.source }
        let e2 : STEdge := { e with src := n, prev := some L }
        let e2t : STEdge := { et with dst := n, next := some (L + 1) }
        let g1 : STGraph := { g with edges :=
          (g.edges.set i (some e2)).set it (some e2t) ++ [some e1, some e1t] }
        let g2 := match e.prev with
          | some p => if p = it then g1 else setNextE g1 p (some L)
          | none => g1
        let g3 := match et.next with
          | some m => if m = i then g2 else setPrevE g2 m (some (L + 1))
          | none => g2
        some (g3, L, i)

/-- Modelled from the spec: `insertNode(edge, mid_point, mid_bead_count)`
(spec §4.4): create the new node at `mid_point` carrying the bead count,
split the edge at it, and return "the replacement edge that still points
at the original `to` node".  The new node's distance-to-boundary is not
specified by the spec and is left `0`. -/
def insertNode (g : STGraph) (i : Nat) (mid : Pt) (beadCnt : Int) :
    STGraph × Nat :=
  let n := g.nodes.length
  let g0 : STGraph := { g with nodes := g.nodes ++ [some ⟨mid, 0, beadCnt⟩] }
  match splitEdgeAt g0 i n with
  | some (g1, _, last) => (g1, last)
  | none => (g, i)

/-- Modelled from the spec: `getSource(edge)` (spec §4.4): "returns the
pair of original boundary points that this edge's region is derived
from"; the lineage walk is abstracted as the stored boundary-segment
index of the edge. -/
def getSource (g : STGraph) (i : Nat) : Pt × Pt :=
  match getE g i with
  | none => ((0, 0), (0, 0))
  | some e =>
    let m := g.poly.length
    if m = 0 then ((0, 0), (0, 0))
    else ((g.poly[e.source % m]?).getD (0, 0),
          (g.poly[(e.source + 1) % m]?).getD (0, 0))

/-- The closest point to `q` on the segment from `s` to `t`, with integer
coordinates (the projection parameter is clamped to the segment). -/
def closestOnSegment (q s t : Pt) : Pt :=
  let v := psub t s
  let l2 := vSize2 v
  if l2 = 0 then s
  else
    let c := max 0 (min l2 (pdot (psub q s) v))
    (s.1 + c * v.1 / l2, s.2 + c * v.2 / l2)

/-- The endpoint of the segment `s`–`t` nearest to `q`. -/
def nearestEndpoint (q s t : Pt) : Pt :=
  if vSize2 (psub q s) ≤ vSize2 (psub q t) then s else t

/-- Modelled from the spec: `makeRib(prev_edge, start_source_point,
end_source_point, is_next_to_start_or_end)` (spec §4.4): construct the
rib edge pair from the node at the head of `prev_edge` down to the
boundary-derived point, threading it into the loop at `prev_edge`; when
the rib sits next to a boundary segment endpoint the point snaps to that
endpoint, and a rib that would be zero-length is skipped, leaving the
graph unchanged (spec §7).  Returns the new `prev_edge` (the upward rib
half) for the caller to continue from. -/
def makeRib (g : STGraph) (prevE : Nat) (sp ep : Pt) (isAdj : Bool) :
    STGraph × Nat :=
  match getE g prevE with
  | none => (g, prevE)
  | some e =>
    let vp := posN g e.dst
    let p := if isAdj then nearestEndpoint vp sp ep
             else closestOnSegment vp sp ep
    if p = vp || e.next = some prevE then (g, prevE)
    else
      let nb := g.nodes.length
      let M := g.edges.length
      let eM : STEdge :=
        { src := e.dst, dst := nb, twin := M + 1,
          next := some (M + 1), prev := some prevE,
          role := EdgeRole.rib, central := false, source := e.source }
      let eM1 : STEdge :=
        { src := nb, dst := e.dst, twin := M,
          next := e.next, prev := some M,
          role := EdgeRole.rib, central := false, source := e.source }
      let g1 : STGraph := { g with
        nodes := g.nodes ++ [some ⟨p, 0, 0⟩],
        edges := g.edges.set prevE (some { e with next := some M }) ++
          [some eM, some eM1] }
      let g2 := match e.next with
        | some m => setPrevE g1 m (some (M + 1))
        | none => g1
      (g2, M + 1)

/-- Modelled from the spec: `insertRib(edge, mid_node)` (spec §4.4):
split the edge at the already-placed node and anchor that node to the
original input boundary (recovered via `getSource`) with a rib; "returns
the first and last edge of the edges replacing edge pointing to the same
node".  When the source segment is degenerate the operation is skipped
and the graph is left in its previous state (spec §7). -/
def insertRib (g : STGraph) (i : Nat) (midN : Nat) :
    STGraph × (Nat × Nat) :=
  let sp := (getSource g i).1
  let tp := (getSource g i).2
  if sp = tp then (g, (i, i))
  else
    match splitEdgeAt g i midN with
    | none => (g, (i, i))
    | some (g1, first, last) =>
      let mp := posN g1 midN
      let proj := closestOnSegment mp sp tp
      let isAdj := decide (proj = sp ∨ proj = tp)
      let r := makeRib g1 first sp tp isAdj
      (r.1, (first, last))

/-- The hypothesis of the `insertNode` length property: `p` lies on the
segment between `a` and `b` — collinear and coordinate-wise between. -/
def onSegment (a b p : Pt) : Prop :=
  pcross (psub p a) (psub b a) = 0 ∧
    0 ≤ (p.1 - a.1) * (b.1 - p.1) ∧ 0 ≤ (p.2 - a.2) * (b.2 - p.2)

instance (a b p : Pt) : Decidable (onSegment a b p) := by
  unfold onSegment; infer_instance

end STG

namespace STG

/-! ## SquareGrid.nonzeroSign -/

/-- Modelled from the spec: `SquareGrid::nonzeroSign`
(src/include/utils/SquareGrid.h, lines 142–150; the implementation body
is not in the source tree): "Compute the sign of a number.  The number 0
will result in a positive sign (1). ... 1 if the number is positive or
0, or -1 if the number is negative." -/
def SquareGrid.nonzeroSign (z : Int) : Int :=
  if 0 ≤ z then 1 else -1

/-! ## The chain relation and twin coherence -/

/-- The plateau walk of spec §4.2, as a relation: starting at plateau
node `b` with reverse-arrival slot `back` and visited set `vis`, the
chain of equidistant continuations ends in a strict increase after a
further traversed length `t`. -/
inductive ChainFind (g : STGraph) : List Nat → Nat → Nat → Nat → Prop where
  | found : ∀ vis b back j, findUpward g b back = some j →
      ChainFind g vis b back (elen g j)
  | step : ∀ vis b back j t, findUpward g b back = none →
      findEqUnvisited g vis b back = some j →
      ChainFind g (dstOf g j :: vis) (dstOf g j) (twinOf g j) t →
      ChainFind g vis b back (elen g j + t)

/-- The twin-coherence check for one edge slot: the twin is live with
swapped endpoints (`from(e) == to(twin(e))`, `to(e) == from(twin(e))`,
spec §3). -/
def twinCohOK (g : STGraph) (i : Nat) : Bool :=
  match getE g i with
  | none => true
  | some e =>
    match getE g e.twin with
    | some et => et.src == e.dst && et.dst == e.src
    | none => false

/-- Twin coherence for every stored edge (the endpoint half of the core
invariants of spec §3). -/
def TwinCoherent (g : STGraph) : Prop :=
  ∀ i, i < g.edges.length → twinCohOK g i = true

instance (g : STGraph) : Decidable (TwinCoherent g) := by
  unfold TwinCoherent; infer_instance

/-- The invariant the chain walk maintains about the excluded `back`
slot: if it is live and leaves the current plateau node, it leads to an
equidistant node (it is the reverse of the equidistant edge the walk
arrived through). -/
def InvBack (g : STGraph) (b back : Nat) : Prop :=
  ∀ eb, getE g back = some eb → eb.src = b → dtbN g eb.dst = dtbN g b

/-! ## Concrete example graphs

`exChain` is Scenario B of spec §8: a straight chain of three nodes with
equal distance-to-boundary at the first two and a strictly larger value
at the third.  `exPlateau` is a two-node plateau whose chain dead-ends.
`exCycle` is a malformed, cyclic equidistant chain (spec §7).  `exQuad`
is a quad with two protected connector edges, one of which is short, and
a short non-protected edge.  `exRib` is a single skeleton edge over a
boundary polygon with a spare middle node; `exRibDeg` in addition has a
degenerate source segment. -/

def exChain : STGraph :=
  { nodes := [some ⟨(0, 0), 5, 0⟩, some ⟨(10, 0), 5, 0⟩,
      some ⟨(30, 0), 9, 0⟩],
    edges := [
      some ⟨0, 1, 1, some 2, some 1, EdgeRole.normal, true, 0⟩,
      some ⟨1, 0, 0, some 0, some 3, EdgeRole.normal, true, 0⟩,
      some ⟨1, 2, 3, some 3, some 0, EdgeRole.normal, true, 0⟩,
      some ⟨2, 1, 2, some 1, some 2, EdgeRole.normal, true, 0⟩],
    poly := [] }

def exPlateau : STGraph :=
  { nodes := [some ⟨(0, 0), 5, 0⟩, some ⟨(10, 0), 5, 0⟩],
    edges := [
      some ⟨0, 1, 1, some 1, some 1, EdgeRole.normal, true, 0⟩,
      some ⟨1, 0, 0, some 0, some 0, EdgeRole.normal, true, 0⟩],
    poly := [] }

def exCycle : STGraph :=
  { nodes := [some ⟨(0, 0), 5, 0⟩, some ⟨(10, 0), 5, 0⟩,
      some ⟨(5, 5), 5, 0⟩],
    edges := [
      some ⟨0, 1, 1, some 2, some 4, EdgeRole.normal, true, 0⟩,
      some ⟨1, 0, 0, some 5, some 3, EdgeRole.normal, true, 0⟩,
      some ⟨1, 2, 3, some 4, some 0, EdgeRole.normal, true, 0⟩,
      some ⟨2, 1, 2, some 1, some 5, EdgeRole.normal, true, 0⟩,
      some ⟨2, 0, 5, some 0, some 2, EdgeRole.normal, true, 0⟩,
      some ⟨0, 2, 4, some 3, some 1, EdgeRole.normal, true, 0⟩],
    poly := [] }

def exQuad : STGraph :=
  { nodes := [some ⟨(0, 0), 3, 0⟩, some ⟨(0, 2), 3, 0⟩,
      some ⟨(200, 2), 3, 0⟩, some ⟨(2, 0), 3, 0⟩],
    edges := [
      some ⟨0, 1, 1, some 2, some 6, EdgeRole.support, false, 0⟩,
      some ⟨1, 0, 0, some 7, some 3, EdgeRole.support, false, 0⟩,
      some ⟨1, 2, 3, some 4, some 0, EdgeRole.normal, false, 0⟩,
      some ⟨2, 1, 2, some 1, some 5, EdgeRole.normal, false, 0⟩,
      some ⟨2, 3, 5, some 6, some 2, EdgeRole.normal, false, 0⟩,
      some ⟨3, 2, 4, some 3, some 7, EdgeRole.normal, false, 0⟩,
      some ⟨3, 0, 7, some 0, some 4, EdgeRole.normal, false, 0⟩,
      some ⟨0, 3, 6, some 5, some 1, EdgeRole.normal, false, 0⟩],
    poly := [] }

def exRib : STGraph :=
  { nodes := [some ⟨(0, 10), 5, 0⟩, some ⟨(20, 10), 5, 0⟩,
      some ⟨(10, 10), 0, 2⟩],
    edges := [
      some ⟨0, 1, 1, some 1, some 1, EdgeRole.normal, true, 0⟩,
      some ⟨1, 0, 0, some 0, some 0, EdgeRole.normal, true, 0⟩],
    poly := [(-50, 0), (50, 0), (50, 100)] }

def exRibDeg : STGraph :=
  { exRib with poly := [(7, 7), (7, 7)] }

/-- A support-edge triangle: every edge is short and protected and no
face loop is a quad, so the collapse pass leaves it untouched. -/
def exProt : STGraph :=
  { nodes := [some ⟨(0, 0), 5, 0⟩, some ⟨(2, 0), 5, 0⟩,
      some ⟨(1, 1), 5, 0⟩],
    edges := [
      some ⟨0, 1, 1, some 2, some 4, EdgeRole.support, true, 0⟩,
      some ⟨1, 0, 0, some 5, some 3, EdgeRole.support, true, 0⟩,
      some ⟨1, 2, 3, some 4, some 0, EdgeRole.support, true, 0⟩,
      some ⟨2, 1, 2, some 1, some 5, EdgeRole.support, true, 0⟩,
      some ⟨2, 0, 5, some 0, some 2, EdgeRole.support, true, 0⟩,
      some ⟨0, 2, 4, some 3, some 1, EdgeRole.support, true, 0⟩],
    poly := [] }

end STG
namespace STG

/-! ## Basic facts about slot access and update -/

theorem getE_lt {g : STGraph} {i : Nat} {e : STEdge} (h : getE g i = some e) :
    i < g.edges.length := by
  unfold getE at h
  by_contra hge
  have hnone : g.edges[i]? = none := List.getElem?_eq_none (by omega)
  rw [hnone] at h
  cases h

theorem getE_updE (g : STGraph) (i : Nat) (f : STEdge → STEdge) (j : Nat) :
    getE (updE g i f) j = if j = i then (getE g i).map f else getE g j := by
  unfold updE
  cases hgi : getE g i with
  | none =>
    by_cases hj : j = i <;> simp [hj, hgi]
  | some e =>
    have hlt : i < g.edges.length := getE_lt hgi
    by_cases hj : j = i
    · subst hj
      simp [getE, List.getElem?_set, hlt]
    · have hij : i ≠ j := fun h => hj h.symm
      simp [getE, List.getElem?_set, hij, hj]

theorem getE_killE (g : STGraph) (i : Nat) (j : Nat) :
    getE (killE g i) j = if j = i then none else getE g j := by
  unfold killE
  cases hgi : getE g i with
  | none =>
    by_cases hj : j = i <;> simp [hj, hgi]
  | some e =>
    have hlt : i < g.edges.length := getE_lt hgi
    by_cases hj : j = i
    · subst hj
      simp [getE, List.getElem?_set, hlt]
    · have hij : i ≠ j := fun h => hj h.symm
      simp [getE, List.getElem?_set, hij, hj]

theorem getN_updE (g : STGraph) (i : Nat) (f : STEdge → STEdge) (n : Nat) :
    getN (updE g i f) n = getN g n := by
  unfold updE
  cases getE g i <;> rfl

theorem getN_killE (g : STGraph) (i : Nat) (n : Nat) :
    getN (killE g i) n = getN g n := by
  unfold killE
  cases getE g i <;> rfl

theorem getE_killN (g : STGraph) (n : Nat) (j : Nat) :
    getE (killN g n) j = getE g j := by
  unfold killN
  cases getN g n <;> rfl

theorem length_updE (g : STGraph) (i : Nat) (f : STEdge → STEdge) :
    (updE g i f).edges.length = g.edges.length := by
  unfold updE
  cases getE g i <;> simp

theorem length_killE (g : STGraph) (i : Nat) :
    (killE g i).edges.length = g.edges.length := by
  unfold killE
  cases getE g i <;> simp

theorem length_killN (g : STGraph) (n : Nat) :
    (killN g n).edges.length = g.edges.length := by
  unfold killN
  cases getN g n <;> rfl

end STG


namespace STG

/-! ## Generic list helpers -/

theorem countP_le_of_pointwise {p q : Nat → Bool} :
    ∀ {l : List Nat}, (∀ a ∈ l, p a = true → q a = true) →
      l.countP p ≤ l.countP q := by
  intro l
  induction l with
  | nil => intro _; simp
  | cons a l ih =>
    intro h
    rw [List.countP_cons, List.countP_cons]
    have h1 : l.countP p ≤ l.countP q :=
      ih (fun x hx => h x (List.mem_cons_of_mem a hx))
    by_cases hpa : p a = true
    · have hqa : q a = true := h a (List.mem_cons_self a l) hpa
      simp [hpa, hqa]; omega
    · have : p a = false := by revert hpa; cases p a <;> simp
      simp [this]
      cases q a <;> simp <;> omega

theorem countP_lt_of_pointwise {p q : Nat → Bool} :
    ∀ {l : List Nat}, (∀ a ∈ l, p a = true → q a = true) →
      ∀ {i : Nat}, i ∈ l → p i = false → q i = true →
      l.countP p < l.countP q := by
  intro l
  induction l with
  | nil => intro _ i hi; cases hi
  | cons a l ih =>
    intro h i hi hpi hqi
    rw [List.countP_cons, List.countP_cons]
    rcases List.mem_cons.mp hi with rfl | hi2
    · have h1 : l.countP p ≤ l.countP q :=
        countP_le_of_pointwise (fun x hx => h x (List.mem_cons_of_mem i hx))
      simp [hpi, hqi]; omega
    · have h2 : l.countP p < l.countP q :=
        ih (fun x hx => h x (List.mem_cons_of_mem a hx)) hi2 hpi hqi
      by_cases hpa : p a = true
      · have hqa : q a = true := h a (List.mem_cons_self a l) hpa
        simp [hpa, hqa]; omega
      · have : p a = false := by revert hpa; cases p a <;> simp
        simp [this]
        cases q a <;> simp <;> omega

theorem foldl_pres {α : Type} {P : STGraph → Prop} (step : STGraph → α → STGraph)
    (hstep : ∀ h a, P h → P (step h a)) :
    ∀ (l : List α) (g : STGraph), P g → P (l.foldl step g) := by
  intro l
  induction l with
  | nil => intro g hg; exact hg
  | cons a l ih => intro g hg; exact ih (step g a) (hstep g a hg)

/-! ## Liveness and length through the primitives -/

theorem liveE_updE (g : STGraph) (i : Nat) (f : STEdge → STEdge) (j : Nat) :
    liveE (updE g i f) j = liveE g j := by
  rw [liveE, liveE, getE_updE]
  by_cases hj : j = i
  · subst hj; simp
  · simp [hj]

theorem liveE_killE (g : STGraph) (i : Nat) (j : Nat) :
    liveE (killE g i) j = if j = i then false else liveE g j := by
  rw [liveE, getE_killE]
  by_cases hj : j = i <;> simp [hj, liveE]

theorem length_spliceOut (g : STGraph) (i : Nat) :
    (spliceOut g i).edges.length = g.edges.length := by
  unfold spliceOut
  cases getE g i with
  | none => rfl
  | some e =>
    cases hp : e.prev <;> cases hn : e.next <;>
      simp [hp, hn, setNextE, setPrevE, length_updE]

theorem liveE_spliceOut (g : STGraph) (i : Nat) (j : Nat) :
    liveE (spliceOut g i) j = liveE g j := by
  unfold spliceOut
  cases getE g i with
  | none => rfl
  | some e =>
    cases hp : e.prev <;> cases hn : e.next <;>
      simp [hp, hn, setNextE, setPrevE, liveE_updE]

theorem length_removeEdgePair (g : STGraph) (i : Nat) :
    (removeEdgePair g i).edges.length = g.edges.length := by
  unfold removeEdgePair
  cases getE g i with
  | none => rfl
  | some e =>
    by_cases ht : e.twin = i <;>
      simp [ht, length_killE, length_spliceOut]

theorem liveE_removeEdgePair_le (g : STGraph) (i : Nat) (j : Nat)
    (h : liveE (removeEdgePair g i) j = true) : liveE g j = true := by
  unfold removeEdgePair at h
  cases hgi : getE g i with
  | none => rw [hgi] at h; exact h
  | some e =>
    rw [hgi] at h
    by_cases ht : e.twin = i <;>
      simp [ht, liveE_killE, liveE_spliceOut] at h
    · rcases h with ⟨_, h2⟩; exact h2
    · rcases h with ⟨_, _, h3⟩; exact h3

theorem liveE_removeEdgePair_self (g : STGraph) (i : Nat) :
    liveE (removeEdgePair g i) i = false := by
  unfold removeEdgePair
  cases hgi : getE g i with
  | none => simp [liveE, hgi]
  | some e =>
    by_cases ht : e.twin = i <;>
      simp [ht, liveE_killE, liveE_spliceOut]

theorem getE_retarget (g : STGraph) (b a : Nat) (j : Nat) :
    getE (retargetNode g b a) j = (getE g j).map (renameNode b a) := by
  unfold retargetNode getE
  simp only [List.getElem?_map]
  cases g.edges[j]? with
  | none => rfl
  | some o => cases o <;> rfl

theorem liveE_retarget (g : STGraph) (b a : Nat) (j : Nat) :
    liveE (retargetNode g b a) j = liveE g j := by
  rw [liveE, liveE, getE_retarget]
  cases getE g j <;> rfl

theorem length_retarget (g : STGraph) (b a : Nat) :
    (retargetNode g b a).edges.length = g.edges.length := by
  unfold retargetNode; simp

theorem liveE_killN (g : STGraph) (n : Nat) (j : Nat) :
    liveE (killN g n) j = liveE g j := by
  rw [liveE, liveE, getE_killN]

/-- The graph `g'` has the same edge storage size as `g` and no edge live
in `g'` that was dead in `g`:  the collapse primitives only shrink. -/
def Shrinks (g g' : STGraph) : Prop :=
  g'.edges.length = g.edges.length ∧
    ∀ j, liveE g' j = true → liveE g j = true

theorem Shrinks.refl (g : STGraph) : Shrinks g g := ⟨rfl, fun _ h => h⟩

theorem Shrinks.trans {g1 g2 g3 : STGraph} (h12 : Shrinks g1 g2)
    (h23 : Shrinks g2 g3) : Shrinks g1 g3 :=
  ⟨h23.1.trans h12.1, fun j hj => h12.2 j (h23.2 j hj)⟩

theorem shrinks_removeEdgePair (g : STGraph) (i : Nat) :
    Shrinks g (removeEdgePair g i) :=
  ⟨length_removeEdgePair g i, fun j hj => liveE_removeEdgePair_le g i j hj⟩

theorem shrinks_retarget (g : STGraph) (b a : Nat) :
    Shrinks g (retargetNode g b a) :=
  ⟨length_retarget g b a, fun j hj => by rwa [liveE_retarget] at hj⟩

theorem shrinks_killN (g : STGraph) (n : Nat) :
    Shrinks g (killN g n) :=
  ⟨length_killN g n, fun j hj => by rwa [liveE_killN] at hj⟩

theorem shrinks_cleanup (g : STGraph) :
    Shrinks g (cleanupSelfLoops g) := by
  unfold cleanupSelfLoops
  refine foldl_pres _ ?_ _ g (Shrinks.refl g)
  intro h a hP
  by_cases hc : (liveE h a && srcOf h a == dstOf h a && !protPair h a) = true
  · simp only [hc, if_pos]
    exact hP.trans (shrinks_removeEdgePair h a)
  · simp only [hc, if_neg]
    simpa using hP

theorem shrinks_singleStep (g : STGraph) (i : Nat) :
    Shrinks g (singleStep g i) := by
  unfold singleStep
  cases hgi : getE g i with
  | none => exact Shrinks.refl g
  | some e =>
    refine Shrinks.trans (Shrinks.trans (shrinks_removeEdgePair g i) ?_)
      (shrinks_cleanup _)
    by_cases hd : e.dst = e.src
    · simp only [hd, if_pos rfl]; exact Shrinks.refl _
    · simp only [if_neg hd]
      exact Shrinks.trans (shrinks_retarget _ _ _) (shrinks_killN _ _)

theorem shrinks_quadStep (g : STGraph) (i : Nat) :
    Shrinks g (quadStep g i) := by
  unfold quadStep
  cases hq : quadSlotsOf g i with
  | none => exact Shrinks.refl g
  | some q =>
    have h1 : Shrinks g (q.foldl removeEdgePair g) :=
      foldl_pres _ (fun h a hP => hP.trans (shrinks_removeEdgePair h a))
        q g (Shrinks.refl g)
    have h2 : Shrinks (q.foldl removeEdgePair g)
        ((((q.map (srcOf g) ++ q.map (dstOf g)).filter
            (fun n => n != srcOf g i)).dedup).foldl
          (fun h n => killN (retargetNode h n (srcOf g i)) n)
          (q.foldl removeEdgePair g)) :=
      foldl_pres _
        (fun h a hP => hP.trans ((shrinks_retarget h a _).trans
          (shrinks_killN _ a))) _ _ (Shrinks.refl _)
    exact (h1.trans h2).trans (shrinks_cleanup _)

end STG

namespace STG

/-! ## Strict decrease of the live-edge count, and the collapse fixed point -/

theorem Shrinks.dead {g1 g2 : STGraph} (h : Shrinks g1 g2) (i : Nat)
    (hd : liveE g1 i = false) : liveE g2 i = false := by
  cases hle : liveE g2 i
  · rfl
  · exact absurd (h.2 i hle) (by simp [hd])

theorem liveE_lt {g : STGraph} {i : Nat} (h : liveE g i = true) :
    i < g.edges.length := by
  unfold liveE at h
  cases hgi : getE g i with
  | none => rw [hgi] at h; cases h
  | some e => exact getE_lt hgi

theorem liveCount_lt_of {g g' : STGraph} (hs : Shrinks g g') {i : Nat}
    (hlive : liveE g i = true) (hdead : liveE g' i = false) :
    liveCount g' < liveCount g := by
  unfold liveCount
  rw [hs.1, ← List.countP_eq_length_filter, ← List.countP_eq_length_filter]
  exact countP_lt_of_pointwise (fun a _ ha => hs.2 a ha)
    (List.mem_range.mpr (liveE_lt hlive)) (by simp [hdead]) hlive

theorem liveE_singleStep_self (g : STGraph) (i : Nat) (e : STEdge)
    (hgi : getE g i = some e) : liveE (singleStep g i) i = false := by
  unfold singleStep
  rw [hgi]
  have hself := liveE_removeEdgePair_self g i
  by_cases hd : e.dst = e.src
  · simp only [if_pos hd]
    exact (shrinks_cleanup _).dead i hself
  · simp only [if_neg hd]
    exact ((((shrinks_retarget _ _ _).trans (shrinks_killN _ _)).trans
      (shrinks_cleanup _))).dead i hself

theorem shrinks_removeFold (g0 : STGraph) (l : List Nat) :
    Shrinks g0 (l.foldl removeEdgePair g0) :=
  foldl_pres _ (fun h a hP => hP.trans (shrinks_removeEdgePair h a))
    l g0 (Shrinks.refl g0)

theorem shrinks_nodeMergeFold (g0 : STGraph) (l : List Nat) (s : Nat) :
    Shrinks g0 (l.foldl (fun h n => killN (retargetNode h n s) n) g0) :=
  foldl_pres _ (fun h a hP => hP.trans ((shrinks_retarget h a _).trans
    (shrinks_killN _ a))) l g0 (Shrinks.refl g0)

theorem quadSlotsOf_head {g : STGraph} {i : Nat} {q : List Nat}
    (h : quadSlotsOf g i = some q) : ∃ rest, q = i :: rest := by
  unfold quadSlotsOf at h
  cases h1 : nextOf g i with
  | none => simp only [h1] at h; cases h
  | some i2 =>
    simp only [h1] at h
    cases h2 : nextOf g i2 with
    | none => simp only [h2] at h; cases h
    | some i3 =>
      simp only [h2] at h
      cases h3 : nextOf g i3 with
      | none => simp only [h3] at h; cases h
      | some i4 =>
        simp only [h3] at h
        cases h4 : nextOf g i4 with
        | none => simp only [h4] at h; cases h
        | some i5 =>
          simp only [h4] at h
          by_cases h5 : i5 = i
          · rw [if_pos h5] at h
            cases h
            exact ⟨[i2, i3, i4], rfl⟩
          · rw [if_neg h5] at h; cases h

theorem liveE_quadStep_self (g : STGraph) (i : Nat) (q : List Nat)
    (hq : quadSlotsOf g i = some q) : liveE (quadStep g i) i = false := by
  unfold quadStep
  obtain ⟨rest, rfl⟩ := quadSlotsOf_head hq
  simp only [hq, List.foldl_cons]
  exact (((shrinks_removeFold _ rest).trans
    (shrinks_nodeMergeFold _ _ _)).trans (shrinks_cleanup _)).dead i
    (liveE_removeEdgePair_self g i)

end STG

namespace STG

theorem findEligible_some {g : STGraph} {d : Int} {i : Nat} {b : Bool}
    (h : findEligible g d = some (i, b)) :
    liveE g i = true ∧ shortE g d i = true ∧
      (!protPair g i || quadOK g d i) = true ∧ b = protPair g i := by
  unfold findEligible at h
  cases hf : (List.range g.edges.length).find?
      (fun i => liveE g i && shortE g d i &&
        (!protPair g i || quadOK g d i)) with
  | none => rw [hf] at h; cases h
  | some i0 =>
    rw [hf] at h
    have hp := List.find?_some hf
    simp only [Option.map_some', Option.some.injEq, Prod.mk.injEq] at h
    obtain ⟨rfl, rfl⟩ := h
    simp only [Bool.and_eq_true] at hp
    exact ⟨hp.1.1, hp.1.2, hp.2, rfl⟩

theorem findEligible_none_iff (g : STGraph) (d : Int) :
    findEligible g d = none ↔
      ∀ i, i < g.edges.length →
        (liveE g i && shortE g d i && (!protPair g i || quadOK g d i)) =
          false := by
  unfold findEligible
  rw [Option.map_eq_none', List.find?_eq_none]
  constructor
  · intro h i hi
    have := h i (List.mem_range.mpr hi)
    revert this
    cases (liveE g i && shortE g d i && (!protPair g i || quadOK g d i)) <;>
      simp
  · intro h i hi
    have := h i (List.mem_range.mp hi)
    simp [this]

theorem collapseFuel_none {g : STGraph} {d : Int}
    (h : findEligible g d = none) : ∀ f, collapseFuel f g d = g := by
  intro f
  cases f <;> simp [collapseFuel, h]

theorem collapseFuel_fixed (d : Int) :
    ∀ f (g : STGraph), liveCount g < f →
      findEligible (collapseFuel f g d) d = none := by
  intro f
  induction f with
  | zero => intro g h; omega
  | succ f ih =>
    intro g h
    cases hfe : findEligible g d with
    | none => simp [collapseFuel, hfe]
    | some ib =>
      obtain ⟨i, b⟩ := ib
      have hfs := findEligible_some hfe
      cases b with
      | false =>
        have hlt : liveCount (singleStep g i) < liveCount g := by
          have hlive := hfs.1
          obtain ⟨e, hgi⟩ : ∃ e, getE g i = some e := by
            unfold liveE at hlive
            cases hgi : getE g i with
            | none => rw [hgi] at hlive; cases hlive
            | some e => exact ⟨e, rfl⟩
          exact liveCount_lt_of (shrinks_singleStep g i) hlive
            (liveE_singleStep_self g i e hgi)
        have := ih (singleStep g i) (by omega)
        simpa [collapseFuel, hfe] using this
      | true =>
        have hquad : quadOK g d i = true := by
          have h1 := hfs.2.2.1
          have h2 := hfs.2.2.2
          rw [← h2] at h1
          simpa using h1
        obtain ⟨q, hq⟩ : ∃ q, quadSlotsOf g i = some q := by
          unfold quadOK at hquad
          cases hqs : quadSlotsOf g i with
          | none => rw [hqs] at hquad; cases hquad
          | some q => exact ⟨q, rfl⟩
        have hlt : liveCount (quadStep g i) < liveCount g :=
          liveCount_lt_of (shrinks_quadStep g i) hfs.1
            (liveE_quadStep_self g i q hq)
        have := ih (quadStep g i) (by omega)
        simpa [collapseFuel, hfe] using this

/-- The central fixed-point property of the collapse pass: after
`collapseSmallEdges` no edge is eligible for collapse any more. -/
theorem collapseSmallEdges_fixed (g : STGraph) (d : Int) :
    findEligible (collapseSmallEdges g d) d = none := by
  unfold collapseSmallEdges
  exact collapseFuel_fixed d (liveCount g + 1) g (by omega)

/-- Claim C3: `collapseSmallEdges` is idempotent — running it a second
time with the same snap distance leaves the graph (nodes, edges and all
links) unchanged, because the first run ends in a state with no eligible
edge and the second run then returns its input untouched. -/
theorem C3_collapse_idempotent (g : STGraph) (d : Int) :
    collapseSmallEdges (collapseSmallEdges g d) d = collapseSmallEdges g d := by
  have h := collapseSmallEdges_fixed g d
  unfold collapseSmallEdges
  exact collapseFuel_none h _

/-- Claim C10: `SquareGrid::nonzeroSign` never returns 0: it returns 1
for every `z ≥ 0` (including `z = 0`) and -1 for every `z < 0`. -/
theorem C10_nonzeroSign_spec (z : Int) :
    SquareGrid.nonzeroSign z ≠ 0 ∧
      (0 ≤ z → SquareGrid.nonzeroSign z = 1) ∧
      (z < 0 → SquareGrid.nonzeroSign z = -1) := by
  unfold SquareGrid.nonzeroSign
  refine ⟨?_, ?_, ?_⟩
  · by_cases h : 0 ≤ z <;> simp [h]
  · intro h; simp [h]
  · intro h
    have hn : ¬ 0 ≤ z := by omega
    simp [hn]

theorem C10_nonzeroSign_spec_witness :
    SquareGrid.nonzeroSign 0 = 1 ∧ SquareGrid.nonzeroSign (-3) = -1 :=
  ⟨(C10_nonzeroSign_spec 0).2.1 (by decide),
   (C10_nonzeroSign_spec (-3)).2.2 (by decide)⟩

end STG

namespace STG

/-! ## Claim C8: insertion on an unsuitable edge is skipped atomically -/

/-- Claim C8: when an insertion cannot be performed — `insertRib` on an
edge whose recovered source segment is degenerate, or `makeRib` when the
rib would be zero-length because the boundary point coincides with the
skeleton node — the operation is skipped and the graph is returned
exactly as it was: no partial edit is committed. -/
theorem C8_insertion_skip_atomic (g : STGraph) (i midN prevE : Nat)
    (sp ep : Pt) (isAdj : Bool) :
    ((getSource g i).1 = (getSource g i).2 → (insertRib g i midN).1 = g) ∧
    (∀ e, getE g prevE = some e →
      (if isAdj then nearestEndpoint (posN g e.dst) sp ep
       else closestOnSegment (posN g e.dst) sp ep) = posN g e.dst →
      (makeRib g prevE sp ep isAdj).1 = g) := by
  constructor
  · intro hdeg
    unfold insertRib
    rw [if_pos hdeg]
  · intro e he hzero
    unfold makeRib
    simp only [he]
    simp [hzero]

theorem C8_insertion_skip_atomic_witness :
    (getSource exRibDeg 0).1 = (getSource exRibDeg 0).2 ∧
    (insertRib exRibDeg 0 2).1 = exRibDeg ∧
    (makeRib exRib 0 (20, 10) (90, 0) true).1 = exRib := by
  refine ⟨by decide, ?_, ?_⟩
  · exact (C8_insertion_skip_atomic exRibDeg 0 2 0 (20, 10) (90, 0) true).1
      (by decide)
  · exact (C8_insertion_skip_atomic exRib 0 2 0 (20, 10) (90, 0) true).2
      ⟨0, 1, 1, some 1, some 1, EdgeRole.normal, true, 0⟩
      (by decide) (by decide)

/-! ## Threading lemmas and claim C9: the predicates are read-only -/

theorem anyThread_eq {step : STGraph → Nat → Bool × STGraph}
    {fP : STGraph → Nat → Bool}
    (hstep : ∀ g j, step g j = (fP g j, g)) :
    ∀ (l : List Nat) (g : STGraph), anyThread step l g = (l.any (fP g), g) := by
  intro l
  induction l with
  | nil => intro g; simp [anyThread]
  | cons a l ih =>
    intro g
    rw [anyThread, hstep g a]
    by_cases h : fP g a = true
    · simp [h]
    · have hf : fP g a = false := by revert h; cases fP g a <;> simp
      simp [hf, ih g]

theorem allThread_eq {step : STGraph → Nat → Bool × STGraph}
    {fP : STGraph → Nat → Bool}
    (hstep : ∀ g j, step g j = (fP g j, g)) :
    ∀ (l : List Nat) (g : STGraph), allThread step l g = (l.all (fP g), g) := by
  intro l
  induction l with
  | nil => intro g; simp [allThread]
  | cons a l ih =>
    intro g
    rw [allThread, hstep g a]
    by_cases h : fP g a = true
    · simp [h, ih g]
    · have hf : fP g a = false := by revert h; cases fP g a <;> simp
      simp [hf]

theorem countThread_eq {step : STGraph → Nat → Bool × STGraph}
    {fP : STGraph → Nat → Bool}
    (hstep : ∀ g j, step g j = (fP g j, g)) :
    ∀ (l : List Nat) (g : STGraph),
      countThread step l g = (l.countP (fP g), g) := by
  intro l
  induction l with
  | nil => intro g; simp [countThread]
  | cons a l ih =>
    intro g
    rw [countThread, hstep g a]
    simp only [ih g, List.countP_cons]
    by_cases h : fP g a = true
    · simp [h, Nat.add_comm]
    · have hf : fP g a = false := by revert h; cases fP g a <;> simp
      simp [hf]

theorem walkFuelRun_eq :
    ∀ (f : Nat) (vis : List Nat) (b back acc : Nat) (g : STGraph),
      walkFuelRun f vis b back acc g = (walkFuel g f vis b back acc, g) := by
  intro f
  induction f with
  | zero => intro vis b back acc g; rfl
  | succ f ih =>
    intro vis b back acc g
    rw [walkFuelRun, walkFuel]
    cases findUpward g b back with
    | some j => rfl
    | none =>
      cases findEqUnvisited g vis b back with
      | some j => exact ih _ _ _ _ g
      | none => rfl

theorem chainWalkRun_eq (g : STGraph) (i : Nat) :
    chainWalkRun g i = (chainWalk g i, g) := by
  unfold chainWalkRun chainWalk
  cases getE g i with
  | none => rfl
  | some e =>
    dsimp only
    split_ifs
    · rfl
    · rfl
    · exact walkFuelRun_eq _ _ _ _ _ g

theorem canGoUpRunFuel_eq (strict : Bool) :
    ∀ (f : Nat) (vis : List Nat) (i : Nat) (g : STGraph),
      canGoUpRunFuel strict f vis i g = (canGoUpFuel g strict f vis i, g) := by
  intro f
  induction f with
  | zero => intro vis i g; rfl
  | succ f ih =>
    intro vis i g
    rw [canGoUpRunFuel, canGoUpFuel]
    cases getE g i with
    | none => rfl
    | some e =>
      dsimp only
      split_ifs
      · rfl
      · rfl
      · rfl
      · exact anyThread_eq (fun h j => ih (e.dst :: vis) j h) _ g

/-- Claim C9: the domain predicates `isUpward`, `canGoUp`, `distToGoUp`,
`isLocalMaximum`, `isMultiIntersection` and `isCentral` are pure
read-only queries: the state-threading run of each one returns the graph
it was given — every node and edge record, including all twin/next/prev
links, is left unchanged — together with the pure predicate's value. -/
theorem C9_predicates_read_only (g : STGraph) (i n : Nat) (strict : Bool) :
    isUpwardRun g i = (isUpward g i, g) ∧
    canGoUpRun g i strict = (canGoUp g i strict, g) ∧
    distToGoUpRun g i = (distToGoUp g i, g) ∧
    isLocalMaximumRun g n strict = (isLocalMaximum g n strict, g) ∧
    isMultiIntersectionRun g n = (isMultiIntersection g n, g) ∧
    isCentralRun g n = (isCentral g n, g) := by
  refine ⟨?_, ?_, ?_, ?_, ?_, ?_⟩
  · unfold isUpwardRun isUpward distToGoUp
    rw [chainWalkRun_eq]
  · unfold canGoUpRun canGoUp
    rw [canGoUpRunFuel_eq]
  · unfold distToGoUpRun distToGoUp
    rw [chainWalkRun_eq]
  · unfold isLocalMaximumRun isLocalMaximum
    exact allThread_eq (fun h j => rfl) _ g
  · unfold isMultiIntersectionRun isMultiIntersection
    rw [countThread_eq (fun h j => rfl)]
    simp [List.countP_eq_length_filter]
  · unfold isCentralRun isCentral
    exact anyThread_eq (fun h j => rfl) _ g

end STG

namespace STG

/-! ## Claim C7: canGoUp terminates via visited-node tracking -/

theorem any_congrList {l : List Nat} {f h : Nat → Bool}
    (hfh : ∀ a ∈ l, f a = h a) : l.any f = l.any h := by
  induction l with
  | nil => rfl
  | cons a l ih =>
    rw [List.any_cons, List.any_cons, hfh a (List.mem_cons_self a l),
      ih (fun x hx => hfh x (List.mem_cons_of_mem a hx))]

/-- The number of node slots not yet in the visited list: the measure
that the visited-set tracking makes decrease on every plateau step. -/
def unvisitedCount (g : STGraph) (vis : List Nat) : Nat :=
  (List.range g.nodes.length).countP (fun n => !(vis.contains n))

theorem unvisitedCount_le (g : STGraph) (vis : List Nat) :
    unvisitedCount g vis ≤ g.nodes.length := by
  unfold unvisitedCount
  calc (List.range g.nodes.length).countP (fun n => !(vis.contains n)) ≤
      (List.range g.nodes.length).length := List.countP_le_length _
    _ = g.nodes.length := List.length_range _

theorem unvisitedCount_lt (g : STGraph) (vis : List Nat) (d : Nat)
    (hd : d < g.nodes.length) (hnv : vis.contains d = false) :
    unvisitedCount g (d :: vis) < unvisitedCount g vis := by
  unfold unvisitedCount
  apply countP_lt_of_pointwise
  · intro a _ ha
    simp only [Bool.not_eq_true'] at ha ⊢
    simp only [List.contains_cons, Bool.or_eq_false_iff] at ha
    exact ha.2
  · exact List.mem_range.mpr hd
  · simp [List.contains_cons]
  · show (!(vis.contains d)) = true
    rw [hnv]
    rfl

theorem canGoUpFuel_stable (g : STGraph) (strict : Bool) :
    ∀ f1 {f2 : Nat} {vis : List Nat} {i : Nat},
      unvisitedCount g vis < f1 → unvisitedCount g vis < f2 →
      canGoUpFuel g strict f1 vis i = canGoUpFuel g strict f2 vis i := by
  intro f1
  induction f1 with
  | zero => intro f2 vis i h1 h2; omega
  | succ a ih =>
    intro f2 vis i h1 h2
    cases f2 with
    | zero => omega
    | succ b =>
      rw [canGoUpFuel, canGoUpFuel]
      cases hgi : getE g i with
      | none => rfl
      | some e =>
        dsimp only
        split_ifs with hc1 hc2 hc3
        · rfl
        · rfl
        · rfl
        · apply any_congrList
          intro j hj
          simp only [Bool.or_eq_true, decide_eq_true_eq, not_or] at hc3
          have hnv : vis.contains e.dst = false := by
            rcases hc3 with ⟨h31, _⟩
            revert h31; cases vis.contains e.dst <;> simp
          have hdl : e.dst < g.nodes.length := by omega
          have huv := unvisitedCount_lt g vis e.dst hdl hnv
          exact ih (by omega) (by omega)

/-- Claim C7: `canGoUp(e, strict)` terminates and returns a definite
boolean on every input graph, including malformed graphs whose
equidistant chains form cycles: the visited-node tracking bounds the
depth of the traversal by the number of unvisited nodes, so every fuel
bound of at least `nodes + 1` steps computes the same answer as
`canGoUp` — the traversal stops by itself once no unvisited continuation
exists, never by running out of fuel. -/
theorem C7_canGoUp_definite (g : STGraph) (i : Nat) (strict : Bool)
    (f : Nat) (hf : g.nodes.length + 1 ≤ f) :
    canGoUpFuel g strict f [] i = canGoUp g i strict := by
  unfold canGoUp
  have h := unvisitedCount_le g []
  exact canGoUpFuel_stable g strict f (by omega) (by omega)

theorem C7_canGoUp_definite_witness :
    exCycle.nodes.length + 1 ≤ 50 ∧
    canGoUpFuel exCycle false 50 [] 0 = canGoUp exCycle 0 false ∧
    canGoUp exCycle 0 false = false :=
  ⟨by decide, C7_canGoUp_definite exCycle 0 false 50 (by decide), by decide⟩

end STG

namespace STG

/-! ## Characterisations of the chain-walk scans -/

theorem findUpward_some {g : STGraph} {b back j : Nat}
    (h : findUpward g b back = some j) :
    j ≠ back ∧ liveE g j = true ∧ srcOf g j = b ∧
      dtbN g b < dtbN g (dstOf g j) := by
  unfold findUpward at h
  have hp := List.find?_some h
  simp only [Bool.and_eq_true, bne_iff_ne, beq_iff_eq, decide_eq_true_eq]
    at hp
  exact ⟨hp.1.1.1, hp.1.1.2, hp.1.2, hp.2⟩

theorem findUpward_none {g : STGraph} {b back : Nat}
    (h : findUpward g b back = none) :
    ∀ j, j < g.edges.length → j ≠ back → liveE g j = true → srcOf g j = b →
      ¬(dtbN g b < dtbN g (dstOf g j)) := by
  unfold findUpward at h
  rw [List.find?_eq_none] at h
  intro j hj hne hl hs hup
  have := h j (List.mem_range.mpr hj)
  apply this
  simp [hne, hl, hs, hup]

theorem findEqUnvisited_some {g : STGraph} {vis : List Nat} {b back j : Nat}
    (h : findEqUnvisited g vis b back = some j) :
    j ≠ back ∧ liveE g j = true ∧ srcOf g j = b ∧
      dtbN g (dstOf g j) = dtbN g b ∧
      vis.contains (dstOf g j) = false ∧ dstOf g j < g.nodes.length := by
  unfold findEqUnvisited at h
  have hp := List.find?_some h
  simp only [Bool.and_eq_true, bne_iff_ne, beq_iff_eq, decide_eq_true_eq,
    Bool.not_eq_true'] at hp
  exact ⟨hp.1.1.1.1.1, hp.1.1.1.1.2, hp.1.1.1.2, hp.1.1.2, hp.1.2, hp.2⟩

theorem mem_outgoing {g : STGraph} {n j : Nat} :
    j ∈ outgoing g n ↔
      j < g.edges.length ∧ liveE g j = true ∧ srcOf g j = n := by
  unfold outgoing
  simp only [List.mem_filter, List.mem_range, Bool.and_eq_true, beq_iff_eq]

theorem isLocalMaximum_nonstrict_iff (g : STGraph) (n : Nat) :
    isLocalMaximum g n false = true ↔
      ∀ j, j < g.edges.length → liveE g j = true → srcOf g j = n →
        dtbN g (dstOf g j) ≤ dtbN g n := by
  unfold isLocalMaximum
  rw [List.all_eq_true]
  constructor
  · intro h j h1 h2 h3
    have := h j (mem_outgoing.mpr ⟨h1, h2, h3⟩)
    simpa using this
  · intro h j hj
    obtain ⟨h1, h2, h3⟩ := mem_outgoing.mp hj
    simpa using h j h1 h2 h3

theorem isLocalMaximum_false_of_up (g : STGraph) (n j : Nat)
    (h1 : j < g.edges.length) (h2 : liveE g j = true) (h3 : srcOf g j = n)
    (hup : dtbN g n < dtbN g (dstOf g j)) :
    isLocalMaximum g n false = false := by
  cases hlm : isLocalMaximum g n false with
  | false => rfl
  | true =>
    exact absurd ((isLocalMaximum_nonstrict_iff g n).mp hlm j h1 h2 h3)
      (by omega)

/-! ## Correctness of the chain walk -/

theorem walkFuel_some_iff (g : STGraph) :
    ∀ f (vis : List Nat) (b back acc : Nat),
      unvisitedCount g vis < f →
      ∀ v, ((walkFuel g f vis b back acc).1 = some v ↔
        ∃ t, ChainFind g vis b back t ∧ v = acc + t) := by
  intro f
  induction f with
  | zero => intro vis b back acc h v; omega
  | succ a ih =>
    intro vis b back acc h v
    rw [walkFuel]
    cases hfu : findUpward g b back with
    | some j =>
      dsimp only
      constructor
      · intro hv
        cases hv
        exact ⟨elen g j, ChainFind.found vis b back j hfu, rfl⟩
      · rintro ⟨t, hcf, rfl⟩
        cases hcf with
        | found _ _ _ j2 hfu2 =>
          rw [hfu] at hfu2
          cases hfu2
          rfl
        | step _ _ _ j2 t2 hfu2 => rw [hfu] at hfu2; cases hfu2
    | none =>
      cases hfe : findEqUnvisited g vis b back with
      | some j =>
        dsimp only
        obtain ⟨_, _, _, _, hnv, hdl⟩ := findEqUnvisited_some hfe
        have huv := unvisitedCount_lt g vis (dstOf g j) hdl hnv
        rw [ih (dstOf g j :: vis) (dstOf g j) (twinOf g j)
          (acc + elen g j) (by omega) v]
        constructor
        · rintro ⟨t, hcf, rfl⟩
          exact ⟨elen g j + t,
            ChainFind.step vis b back j t hfu hfe hcf, by omega⟩
        · rintro ⟨t, hcf, rfl⟩
          cases hcf with
          | found _ _ _ j2 hfu2 => rw [hfu] at hfu2; cases hfu2
          | step _ _ _ j2 t2 hfu2 hfe2 hcf2 =>
            rw [hfe] at hfe2
            cases hfe2
            exact ⟨t2, hcf2, by omega⟩
      | none =>
        dsimp only
        constructor
        · intro hv; cases hv
        · rintro ⟨t, hcf, rfl⟩
          cases hcf with
          | found _ _ _ j2 hfu2 => rw [hfu] at hfu2; cases hfu2
          | step _ _ _ j2 t2 hfu2 hfe2 => rw [hfe] at hfe2; cases hfe2

theorem walkFuel_none_iff_LM (g : STGraph) (hTC : TwinCoherent g) :
    ∀ f (vis : List Nat) (b back acc : Nat),
      unvisitedCount g vis < f → InvBack g b back →
      ((walkFuel g f vis b back acc).1 = none ↔
        isLocalMaximum g ((walkFuel g f vis b back acc).2) false = true) := by
  intro f
  induction f with
  | zero => intro vis b back acc h hib; omega
  | succ a ih =>
    intro vis b back acc h hib
    rw [walkFuel]
    cases hfu : findUpward g b back with
    | some j =>
      dsimp only
      obtain ⟨hne, hl, hs, hup⟩ := findUpward_some hfu
      rw [isLocalMaximum_false_of_up g b j (liveE_lt hl) hl hs hup]
      simp
    | none =>
      cases hfe : findEqUnvisited g vis b back with
      | some j =>
        dsimp only
        obtain ⟨hne, hl, hs, heq, hnv, hdl⟩ := findEqUnvisited_some hfe
        have huv := unvisitedCount_lt g vis (dstOf g j) hdl hnv
        apply ih (dstOf g j :: vis) (dstOf g j) (twinOf g j)
          (acc + elen g j) (by omega)
        intro eb hgeb hsb
        obtain ⟨e, hge⟩ : ∃ e, getE g j = some e := by
          unfold liveE at hl
          cases hgj : getE g j with
          | none => rw [hgj] at hl; cases hl
          | some e => exact ⟨e, rfl⟩
        have htw := hTC j (getE_lt hge)
        unfold twinCohOK at htw
        simp only [hge] at htw
        have htwof : twinOf g j = e.twin := by unfold twinOf; rw [hge]
        rw [htwof] at hgeb
        simp only [hgeb, Bool.and_eq_true, beq_iff_eq] at htw
        rw [htw.2]
        have hsrc : srcOf g j = e.src := by unfold srcOf; rw [hge]
        rw [← hsrc, hs]
        exact heq.symm
      | none =>
        dsimp only
        rw [isLocalMaximum_nonstrict_iff]
        constructor
        · intro _ j hj hl hs
          by_cases hjb : j = back
          · subst hjb
            obtain ⟨eb, hgeb⟩ : ∃ eb, getE g j = some eb := by
              unfold liveE at hl
              cases hgj : getE g j with
              | none => rw [hgj] at hl; cases hl
              | some eb => exact ⟨eb, rfl⟩
            have hsb : eb.src = b := by
              unfold srcOf at hs; rw [hgeb] at hs; exact hs
            have := hib eb hgeb hsb
            have hdst : dstOf g j = eb.dst := by unfold dstOf; rw [hgeb]
            rw [hdst]
            omega
          · have := findUpward_none hfu j hj hjb hl hs
            omega
        · intro _; rfl

end STG

namespace STG

/-- Claim C5: `isUpward(e)` returns true when the distance-to-boundary
strictly increases along the edge; false when it strictly decreases;
when the two distances are equal it follows the chain of equidistant
continuations reachable from `to(e)` and returns true exactly when that
chain ends in a strict increase (the `ChainFind` relation), returning
false on a strict decrease or a dead end.  In particular, on the
straight three-node chain of Scenario B (equal distances at the first
two nodes, strictly larger at the third) `isUpward` is true for the
first edge. -/
theorem C5_isUpward_chain (g : STGraph) (i : Nat) (e : STEdge)
    (hgi : getE g i = some e) :
    ((dtbN g e.src < dtbN g e.dst → isUpward g i = true) ∧
     (dtbN g e.dst < dtbN g e.src → isUpward g i = false) ∧
     (dtbN g e.src = dtbN g e.dst →
       (isUpward g i = true ↔
         ∃ t, ChainFind g [e.src, e.dst] e.dst e.twin t))) ∧
    isUpward exChain 0 = true := by
  constructor
  · unfold isUpward distToGoUp chainWalk
    simp only [hgi]
    refine ⟨?_, ?_, ?_⟩
    · intro h
      simp [if_pos h]
    · intro h
      have h1 : ¬ dtbN g e.src < dtbN g e.dst := by omega
      simp [if_neg h1, if_pos h]
    · intro h
      have h1 : ¬ dtbN g e.src < dtbN g e.dst := by omega
      have h2 : ¬ dtbN g e.dst < dtbN g e.src := by omega
      simp only [if_neg h1, if_neg h2]
      have hfuel : unvisitedCount g [e.src, e.dst] < g.nodes.length + 1 := by
        have := unvisitedCount_le g [e.src, e.dst]
        omega
      rw [Option.isSome_iff_exists]
      constructor
      · rintro ⟨v, hv⟩
        obtain ⟨t, hcf, _⟩ := (walkFuel_some_iff g (g.nodes.length + 1)
          [e.src, e.dst] e.dst e.twin (elen g i) hfuel v).mp hv
        exact ⟨t, hcf⟩
      · rintro ⟨t, hcf⟩
        exact ⟨elen g i + t, (walkFuel_some_iff g (g.nodes.length + 1)
          [e.src, e.dst] e.dst e.twin (elen g i) hfuel
          (elen g i + t)).mpr ⟨t, hcf, rfl⟩⟩
  · decide

theorem C5_isUpward_chain_witness :
    getE exChain 0 =
      some ⟨0, 1, 1, some 2, some 1, EdgeRole.normal, true, 0⟩ ∧
    isUpward exChain 0 = true :=
  ⟨by decide,
   (C5_isUpward_chain exChain 0
     ⟨0, 1, 1, some 2, some 1, EdgeRole.normal, true, 0⟩ (by decide)).2⟩

/-- Counterexample to claim C6 as stated: on the two-node plateau
`exPlateau` the equidistant chain of edge 0 dead-ends at node 1 and
`distToGoUp` returns no value, but node 1 does not satisfy
`isLocalMaximum` with `strict = true` in the sense of spec §4.2: its
neighbour along the reverse edge is equidistant, not strictly lower.
So "returns no value exactly when the far end satisfies
`isLocalMaximum(strict=true)`" is false on this graph. -/
theorem C6_counterexample :
    distToGoUp exPlateau 0 = none ∧ farEnd exPlateau 0 = 1 ∧
    isLocalMaximum exPlateau 1 true = false := by decide

/-- Claim C6 (amended): for a twin-coherent graph and an edge that does
not immediately go strictly down, `distToGoUp(e)` returns no value
exactly when the node at the far end of e's equidistant chain satisfies
`isLocalMaximum` with `strict = false` — the non-strict form, since the
chain arrives along an equidistant edge, so the strict form of spec §4.2
never holds at a plateau dead end; and whenever it does return a value,
the value is the accumulated traversed length of the chain up to the
strict increase, including e's own length. -/
theorem C6_distToGoUp_amended (g : STGraph) (i : Nat) (e : STEdge)
    (hTC : TwinCoherent g) (hgi : getE g i = some e)
    (hnd : dtbN g e.src ≤ dtbN g e.dst) :
    (distToGoUp g i = none ↔
      isLocalMaximum g (farEnd g i) false = true) ∧
    (∀ v, distToGoUp g i = some v →
      (dtbN g e.src < dtbN g e.dst ∧ v = elen g i) ∨
      (∃ t, ChainFind g [e.src, e.dst] e.dst e.twin t ∧
        v = elen g i + t)) := by
  unfold distToGoUp farEnd chainWalk
  simp only [hgi]
  by_cases h1 : dtbN g e.src < dtbN g e.dst
  · simp only [if_pos h1]
    constructor
    · constructor
      · intro hv
        simp at hv
      · intro hlm
        exfalso
        have hl : liveE g i = true := by unfold liveE; rw [hgi]; rfl
        have hs : srcOf g i = e.src := by unfold srcOf; rw [hgi]
        have hd : dstOf g i = e.dst := by unfold dstOf; rw [hgi]
        have := (isLocalMaximum_nonstrict_iff g e.src).mp hlm i
          (getE_lt hgi) hl hs
        rw [hd] at this
        omega
    · intro v hv
      cases hv
      exact Or.inl ⟨h1, rfl⟩
  · have h2 : ¬ dtbN g e.dst < dtbN g e.src := by omega
    simp only [if_neg h1, if_neg h2]
    have heq : dtbN g e.src = dtbN g e.dst := by omega
    have hfuel : unvisitedCount g [e.src, e.dst] < g.nodes.length + 1 := by
      have := unvisitedCount_le g [e.src, e.dst]
      omega
    have hinv : InvBack g e.dst e.twin := by
      intro eb hgeb hsb
      have htc := hTC i (getE_lt hgi)
      unfold twinCohOK at htc
      simp only [hgi, hgeb, Bool.and_eq_true, beq_iff_eq] at htc
      rw [htc.2]
      exact heq
    constructor
    · exact walkFuel_none_iff_LM g hTC (g.nodes.length + 1) [e.src, e.dst]
        e.dst e.twin (elen g i) hfuel hinv
    · intro v hv
      right
      obtain ⟨t, hcf, rfl⟩ := (walkFuel_some_iff g (g.nodes.length + 1)
        [e.src, e.dst] e.dst e.twin (elen g i) hfuel v).mp hv
      exact ⟨t, hcf, rfl⟩

theorem C6_distToGoUp_amended_witness :
    TwinCoherent exPlateau ∧
    (distToGoUp exPlateau 0 = none ↔
      isLocalMaximum exPlateau (farEnd exPlateau 0) false = true) :=
  ⟨by decide,
   (C6_distToGoUp_amended exPlateau 0
     ⟨0, 1, 1, some 1, some 1, EdgeRole.normal, true, 0⟩
     (by decide) (by decide) (by decide)).1⟩

end STG

namespace STG

/-! ## Claim C4: insertNode splits an edge with length preservation -/

theorem sqrtLin_correct :
    ∀ (fuel k n : Nat), k ≤ Nat.sqrt n → Nat.sqrt n ≤ k + fuel →
      sqrtLin fuel k n = Nat.sqrt n := by
  intro fuel
  induction fuel with
  | zero =>
    intro k n h1 h2
    show k = Nat.sqrt n
    omega
  | succ fuel ih =>
    intro k n h1 h2
    show (if (k + 1) * (k + 1) ≤ n then sqrtLin fuel (k + 1) n else k) =
      Nat.sqrt n
    by_cases hc : (k + 1) * (k + 1) ≤ n
    · rw [if_pos hc]
      exact ih (k + 1) n (Nat.le_sqrt.mpr hc) (by omega)
    · rw [if_neg hc]
      have hlt : Nat.sqrt n < k + 1 := by
        by_contra hcc
        push_neg at hcc
        exact hc (Nat.le_sqrt.mp hcc)
      omega

theorem isqrt_eq (n : Nat) : isqrt n = Nat.sqrt n := by
  unfold isqrt
  exact sqrtLin_correct n 0 n (Nat.zero_le _)
    (by have := Nat.sqrt_le_self n; omega)

theorem sqrt_split {A B C D : Nat} (hC : C = A + B + 2 * D)
    (hD : D * D = A * B) :
    Nat.sqrt A + Nat.sqrt B ≤ Nat.sqrt C ∧
      Nat.sqrt C ≤ Nat.sqrt A + Nat.sqrt B + 1 := by
  have ha1 : Nat.sqrt A * Nat.sqrt A ≤ A := Nat.sqrt_le A
  have ha2 : A < (Nat.sqrt A + 1) * (Nat.sqrt A + 1) := Nat.lt_succ_sqrt A
  have hb1 : Nat.sqrt B * Nat.sqrt B ≤ B := Nat.sqrt_le B
  have hb2 : B < (Nat.sqrt B + 1) * (Nat.sqrt B + 1) := Nat.lt_succ_sqrt B
  have hab : Nat.sqrt A * Nat.sqrt B ≤ D := by
    by_contra hcon
    push_neg at hcon
    have h1 : D * D < (Nat.sqrt A * Nat.sqrt B) * (Nat.sqrt A * Nat.sqrt B) :=
      Nat.mul_lt_mul_of_lt_of_le hcon (le_of_lt hcon) (by
        by_contra h0
        push_neg at h0
        omega)
    nlinarith
  have hub : D < (Nat.sqrt A + 1) * (Nat.sqrt B + 1) := by
    by_contra hcon
    push_neg at hcon
    have : ((Nat.sqrt A + 1) * (Nat.sqrt B + 1)) *
        ((Nat.sqrt A + 1) * (Nat.sqrt B + 1)) ≤ D * D :=
      Nat.mul_le_mul hcon hcon
    nlinarith
  constructor
  · rw [Nat.le_sqrt]
    nlinarith
  · have : Nat.sqrt C < Nat.sqrt A + Nat.sqrt B + 2 := by
      rw [Nat.sqrt_lt]
      nlinarith
    omega

theorem onSegment_toNat {a b p : Pt} (h : onSegment a b p) :
    ∃ D : Nat,
      (vSize2 (psub b a)).toNat =
        (vSize2 (psub p a)).toNat + (vSize2 (psub b p)).toNat + 2 * D ∧
      D * D = (vSize2 (psub p a)).toNat * (vSize2 (psub b p)).toNat := by
  obtain ⟨hcross, hx, hy⟩ := h
  have hD : 0 ≤ (p.1 - a.1) * (b.1 - p.1) + (p.2 - a.2) * (b.2 - p.2) :=
    add_nonneg hx hy
  have hcross2 : (p.1 - a.1) * (b.2 - p.2) - (p.2 - a.2) * (b.1 - p.1) = 0 := by
    unfold pcross psub at hcross
    dsimp at hcross
    linear_combination hcross
  have hC : vSize2 (psub b a) = vSize2 (psub p a) + vSize2 (psub b p) +
      2 * ((p.1 - a.1) * (b.1 - p.1) + (p.2 - a.2) * (b.2 - p.2)) := by
    unfold vSize2 psub
    dsimp
    ring
  have hD2 : ((p.1 - a.1) * (b.1 - p.1) + (p.2 - a.2) * (b.2 - p.2)) *
      ((p.1 - a.1) * (b.1 - p.1) + (p.2 - a.2) * (b.2 - p.2)) =
      vSize2 (psub p a) * vSize2 (psub b p) := by
    unfold vSize2 psub
    dsimp
    linear_combination
      ((p.2 - a.2) * (b.1 - p.1) - (p.1 - a.1) * (b.2 - p.2)) * hcross2
  have h0a : 0 ≤ vSize2 (psub p a) :=
    add_nonneg (mul_self_nonneg _) (mul_self_nonneg _)
  have h0b : 0 ≤ vSize2 (psub b p) :=
    add_nonneg (mul_self_nonneg _) (mul_self_nonneg _)
  refine ⟨((p.1 - a.1) * (b.1 - p.1) + (p.2 - a.2) * (b.2 - p.2)).toNat,
    ?_, ?_⟩
  · omega
  · zify
    rw [Int.toNat_of_nonneg hD, Int.toNat_of_nonneg h0a,
      Int.toNat_of_nonneg h0b]
    exact hD2

theorem nodes_updE (g : STGraph) (i : Nat) (f : STEdge → STEdge) :
    (updE g i f).nodes = g.nodes := by
  unfold updE
  cases getE g i <;> rfl

theorem poly_updE (g : STGraph) (i : Nat) (f : STEdge → STEdge) :
    (updE g i f).poly = g.poly := by
  unfold updE
  cases getE g i <;> rfl

end STG


namespace STG

theorem getElem_build {α : Type} (l : List α) (i it : Nat) (x y : α)
    (tail : List α) (hi : i < l.length) (hit : it < l.length)
    (hne : it ≠ i) :
    (((l.set i x).set it y) ++ tail)[i]? = some x ∧
    (((l.set i x).set it y) ++ tail)[it]? = some y ∧
    (∀ m, (((l.set i x).set it y) ++ tail)[l.length + m]? = tail[m]?) ∧
    (∀ j, j ≠ i → j ≠ it → j < l.length →
      (((l.set i x).set it y) ++ tail)[j]? = l[j]?) ∧
    (((l.set i x).set it y) ++ tail)[l.length]? = tail[0]? := by
  have k3gen : ∀ m,
      (((l.set i x).set it y) ++ tail)[l.length + m]? = tail[m]? := by
    intro m
    rw [List.getElem?_append, if_neg (by simp)]
    simp
  refine ⟨?_, ?_, k3gen, ?_, ?_⟩
  · rw [List.getElem?_append, if_pos (by simpa using hi),
      List.getElem?_set_ne hne, List.getElem?_set]
    simp [hi]
  · rw [List.getElem?_append, if_pos (by simpa using hit),
      List.getElem?_set]
    simp [hit]
  · intro j hji hjit hjl
    rw [List.getElem?_append, if_pos (by simpa using hjl),
      List.getElem?_set_ne (Ne.symm hjit), List.getElem?_set_ne (Ne.symm hji)]
  · have := k3gen 0
    rwa [Nat.add_zero] at this

theorem getE_fixNext (X : STGraph) (pv : Option Nat) (tw : Nat)
    (v : Option Nat) (j : Nat) :
    getE (match pv with
      | some p => if p = tw then X else setNextE X p v
      | none => X) j =
    if pv = some j ∧ j ≠ tw then
      (getE X j).map (fun ee => { ee with next := v })
    else getE X j := by
  cases pv with
  | none => simp
  | some p =>
    dsimp only
    by_cases hpt : p = tw
    · subst hpt
      rw [if_pos rfl,
        if_neg (by rintro ⟨h1, h2⟩; injection h1 with h1; exact h2 h1.symm)]
    · rw [if_neg hpt]
      unfold setNextE
      rw [getE_updE]
      by_cases hpj : j = p
      · subst hpj
        rw [if_pos rfl, if_pos ⟨rfl, hpt⟩]
      · rw [if_neg hpj, if_neg (by
          rintro ⟨h1, _⟩; injection h1 with h1; exact hpj h1.symm)]

theorem getE_fixPrev (X : STGraph) (mv : Option Nat) (ex : Nat)
    (v : Option Nat) (j : Nat) :
    getE (match mv with
      | some m => if m = ex then X else setPrevE X m v
      | none => X) j =
    if mv = some j ∧ j ≠ ex then
      (getE X j).map (fun ee => { ee with prev := v })
    else getE X j := by
  cases mv with
  | none => simp
  | some m =>
    dsimp only
    by_cases hmt : m = ex
    · subst hmt
      rw [if_pos rfl,
        if_neg (by rintro ⟨h1, h2⟩; injection h1 with h1; exact h2 h1.symm)]
    · rw [if_neg hmt]
      unfold setPrevE
      rw [getE_updE]
      by_cases hmj : j = m
      · subst hmj
        rw [if_pos rfl, if_pos ⟨rfl, hmt⟩]
      · rw [if_neg hmj, if_neg (by
          rintro ⟨h1, _⟩; injection h1 with h1; exact hmj h1.symm)]

theorem nodes_fixNext (X : STGraph) (pv : Option Nat) (tw : Nat)
    (v : Option Nat) :
    (match pv with
      | some p => if p = tw then X else setNextE X p v
      | none => X).nodes = X.nodes := by
  cases pv with
  | none => rfl
  | some p =>
    dsimp only
    by_cases hpt : p = tw
    · rw [if_pos hpt]
    · rw [if_neg hpt]; exact nodes_updE X p _

theorem nodes_fixPrev (X : STGraph) (mv : Option Nat) (ex : Nat)
    (v : Option Nat) :
    (match mv with
      | some m => if m = ex then X else setPrevE X m v
      | none => X).nodes = X.nodes := by
  cases mv with
  | none => rfl
  | some m =>
    dsimp only
    by_cases hmt : m = ex
    · rw [if_pos hmt]
    · rw [if_neg hmt]; exact nodes_updE X m _

theorem poly_fixNext (X : STGraph) (pv : Option Nat) (tw : Nat)
    (v : Option Nat) :
    (match pv with
      | some p => if p = tw then X else setNextE X p v
      | none => X).poly = X.poly := by
  cases pv with
  | none => rfl
  | some p =>
    dsimp only
    by_cases hpt : p = tw
    · rw [if_pos hpt]
    · rw [if_neg hpt]; exact poly_updE X p _

theorem poly_fixPrev (X : STGraph) (mv : Option Nat) (ex : Nat)
    (v : Option Nat) :
    (match mv with
      | some m => if m = ex then X else setPrevE X m v
      | none => X).poly = X.poly := by
  cases mv with
  | none => rfl
  | some m =>
    dsimp only
    by_cases hmt : m = ex
    · rw [if_pos hmt]
    · rw [if_neg hmt]; exact poly_updE X m _

theorem length_fixNext (X : STGraph) (pv : Option Nat) (tw : Nat)
    (v : Option Nat) :
    (match pv with
      | some p => if p = tw then X else setNextE X p v
      | none => X).edges.length = X.edges.length := by
  cases pv with
  | none => rfl
  | some p =>
    dsimp only
    by_cases hpt : p = tw
    · rw [if_pos hpt]
    · rw [if_neg hpt]; exact length_updE X p _

theorem length_fixPrev (X : STGraph) (mv : Option Nat) (ex : Nat)
    (v : Option Nat) :
    (match mv with
      | some m => if m = ex then X else setPrevE X m v
      | none => X).edges.length = X.edges.length := by
  cases mv with
  | none => rfl
  | some m =>
    dsimp only
    by_cases hmt : m = ex
    · rw [if_pos hmt]
    · rw [if_neg hmt]; exact length_updE X m _

end STG

namespace STG

theorem getE_mkGraph (g : STGraph) (E : List (Option STEdge)) (j : Nat) :
    getE { g with edges := E } j =
      match E[j]? with
      | some (some x) => some x
      | _ => none := rfl

set_option maxHeartbeats 1000000 in
theorem splitEdgeAt_getE (g : STGraph) (i n : Nat) (e et : STEdge)
    (hgi : getE g i = some e) (hti : getE g e.twin = some et)
    (ht1 : et.twin = i) (ht2 : e.twin ≠ i)
    (hp1 : e.prev ≠ some i) (hn1 : e.next ≠ some i)
    (hp2 : et.prev ≠ some e.twin) (hn2 : et.next ≠ some e.twin)
    (hpl : ∀ p, e.prev = some p → p < g.edges.length)
    (hml : ∀ m, et.next = some m → m < g.edges.length) :
    ∃ g3, splitEdgeAt g i n = some (g3, g.edges.length, i) ∧
      g3.nodes = g.nodes ∧ g3.poly = g.poly ∧
      g3.edges.length = g.edges.length + 2 ∧
      ∀ j, getE g3 j =
        if j = i then some { e with src := n, prev := some g.edges.length }
        else if j = e.twin then
          some { et with dst := n, next := some (g.edges.length + 1) }
        else if j = g.edges.length then some
          { src := e.src, dst := n, twin := g.edges.length + 1,
            next := some i,
            prev := if e.prev = some e.twin then some (g.edges.length + 1)
                    else e.prev,
            role := e.role, central := e.central, source := e.source }
        else if j = g.edges.length + 1 then some
          { src := n, dst := et.dst, twin := g.edges.length,
            next := if et.next = some i then some g.edges.length
                    else et.next,
            prev := some e.twin,
            role := et.role, central := et.central, source := et.source }
        else (getE g j).map (fun ee =>
          { ee with
            next := if e.prev = some j then some g.edges.length
                    else ee.next,
            prev := if et.next = some j then some (g.edges.length + 1)
                    else ee.prev }) := by
  have hLi : i < g.edges.length := getE_lt hgi
  have hLt : e.twin < g.edges.length := getE_lt hti
  unfold splitEdgeAt
  simp only [hgi, hti]
  have hcond : ¬ ((decide (e.twin = i) || decide (et.twin ≠ i) ||
      decide (e.prev = some i) || decide (e.next = some i) ||
      decide (et.prev = some e.twin) ||
      decide (et.next = some e.twin)) = true) := by
    simp [ht1, ht2, hp1, hn1, hp2, hn2]
  rw [if_neg hcond]
  refine ⟨_, rfl, ?_, ?_, ?_, ?_⟩
  · rw [nodes_fixPrev, nodes_fixNext]
  · rw [poly_fixPrev, poly_fixNext]
  · rw [length_fixPrev, length_fixNext]
    simp
  · intro j
    obtain ⟨k1, k2, k3, k4, k5⟩ := getElem_build g.edges i e.twin
      (some { e with src := n, prev := some g.edges.length })
      (some { et with dst := n, next := some (g.edges.length + 1) })
      [some
          { src := e.src, dst := n, twin := g.edges.length + 1,
            next := some i,
            prev := if e.prev = some e.twin then some (g.edges.length + 1)
                    else e.prev,
            role := e.role, central := e.central, source := e.source },
        some
          { src := n, dst := et.dst, twin := g.edges.length,
            next := if et.next = some i then some g.edges.length
                    else et.next,
            prev := some e.twin,
            role := et.role, central := et.central, source := et.source }]
      hLi hLt ht2
    rw [getE_fixPrev, getE_fixNext, getE_mkGraph]
    by_cases hj1 : j = i
    · subst hj1
      rw [if_neg (by rintro ⟨_, hc⟩; exact hc rfl),
        if_neg (by rintro ⟨hc, _⟩; exact hp1 hc), if_pos rfl, k1]
    · by_cases hj2 : j = e.twin
      · subst hj2
        rw [if_neg (by rintro ⟨hc, _⟩; exact hn2 hc),
          if_neg (by rintro ⟨_, hc⟩; exact hc rfl),
          if_neg hj1, if_pos rfl, k2]
      · by_cases hj3 : j = g.edges.length
        · subst hj3
          rw [if_neg (by
              rintro ⟨hc, _⟩
              exact absurd (hml _ hc) (lt_irrefl _)),
            if_neg (by
              rintro ⟨hc, _⟩
              exact absurd (hpl _ hc) (lt_irrefl _)),
            if_neg hj1, if_neg hj2, if_pos rfl]
          rw [k5]
          rfl
        · by_cases hj4 : j = g.edges.length + 1
          · subst hj4
            rw [if_neg (by
                rintro ⟨hc, _⟩
                have := hml _ hc
                omega),
              if_neg (by
                rintro ⟨hc, _⟩
                have := hpl _ hc
                omega),
              if_neg hj1, if_neg hj2, if_neg hj3, if_pos rfl]
            rw [k3 1]
            rfl
          · rw [if_neg hj1, if_neg hj2, if_neg hj3, if_neg hj4]
            have hbase :
                (match g.edges[j]? with
                  | some (some x) => some x
                  | _ => none) = getE g j := rfl
            have hmain : ∀ X : Option STEdge,
                (((g.edges.set i
                    (some { e with src := n, prev := some g.edges.length })).set
                    e.twin
                    (some { et with dst := n, next := some (g.edges.length + 1) }) ++
                  [some
                      { src := e.src, dst := n,
                        twin := g.edges.length + 1, next := some i,
                        prev := if e.prev = some e.twin then
                          some (g.edges.length + 1) else e.prev,
                        role := e.role, central := e.central,
                        source := e.source },
                    some
                      { src := n, dst := et.dst,
                        twin := g.edges.length,
                        next := if et.next = some i then
                          some g.edges.length else et.next,
                        prev := some e.twin,
                        role := et.role, central := et.central,
                        source := et.source }])[j]?) = g.edges[j]? := by
              intro _
              by_cases hjl : j < g.edges.length
              · exact k4 j hj1 hj2 hjl
              · obtain ⟨m, rfl⟩ : ∃ m, j = g.edges.length + m :=
                  ⟨j - g.edges.length, by omega⟩
                rw [k3 m]
                have hm2 : 2 ≤ m := by omega
                rw [List.getElem?_eq_none (by simpa using hm2),
                  List.getElem?_eq_none (l := g.edges) (by omega)]
            rw [hmain none]
            rw [hbase]
            by_cases hc1 : e.prev = some j
            · by_cases hc2 : et.next = some j
              · rw [if_pos ⟨hc2, hj1⟩, if_pos ⟨hc1, hj2⟩]
                cases getE g j with
                | none => simp
                | some ee => simp [hc1, hc2]
              · rw [if_neg (by rintro ⟨hc, _⟩; exact hc2 hc),
                  if_pos ⟨hc1, hj2⟩]
                cases getE g j with
                | none => simp
                | some ee => simp [hc1, hc2]
            · by_cases hc2 : et.next = some j
              · rw [if_pos ⟨hc2, hj1⟩,
                  if_neg (by rintro ⟨hc, _⟩; exact hc1 hc)]
                cases getE g j with
                | none => simp
                | some ee => simp [hc1, hc2]
              · rw [if_neg (by rintro ⟨hc, _⟩; exact hc2 hc),
                  if_neg (by rintro ⟨hc, _⟩; exact hc1 hc)]
                cases getE g j with
                | none => simp
                | some ee => simp [hc1, hc2]

end STG

namespace STG

theorem posN_eq_of_nodes {g1 g2 : STGraph} (h : g1.nodes = g2.nodes)
    (j : Nat) : posN g1 j = posN g2 j := by
  unfold posN getN
  rw [h]

theorem posN_append_lt (g : STGraph) (l : List (Option STNode)) (j : Nat)
    (hj : j < g.nodes.length) :
    posN { g with nodes := g.nodes ++ l } j = posN g j := by
  unfold posN getN
  dsimp only
  rw [List.getElem?_append, if_pos hj]

theorem posN_append_self (g : STGraph) (v : STNode) :
    posN { g with nodes := g.nodes ++ [some v] } g.nodes.length = v.pos := by
  unfold posN getN
  dsimp only
  rw [List.getElem?_append, if_neg (by omega)]
  simp

/-- From well-formedness, the twin of a live edge is live and points
back. -/
theorem WF_twin {g : STGraph} (hWF : WF g) {i : Nat} {e : STEdge}
    (hgi : getE g i = some e) :
    ∃ et, getE g e.twin = some et ∧ et.twin = i := by
  have h := hWF i (getE_lt hgi)
  unfold edgeOK at h
  simp only [hgi] at h
  cases ht : getE g e.twin with
  | none => simp only [ht] at h; simp at h
  | some et =>
    simp only [ht, Bool.and_eq_true, beq_iff_eq] at h
    exact ⟨et, rfl, h.1.1⟩

/-- From well-formedness, a live edge's `prev` is a live slot. -/
theorem WF_prev_lt {g : STGraph} (hWF : WF g) {i : Nat} {e : STEdge}
    (hgi : getE g i = some e) :
    ∀ p, e.prev = some p → p < g.edges.length := by
  intro p hp
  have h := hWF i (getE_lt hgi)
  unfold edgeOK at h
  simp only [hgi, hp] at h
  cases hgp : getE g p with
  | none => simp only [hgp] at h; simp at h
  | some ep => exact getE_lt hgp

/-- From well-formedness, a live edge's `next` is a live slot. -/
theorem WF_next_lt {g : STGraph} (hWF : WF g) {i : Nat} {e : STEdge}
    (hgi : getE g i = some e) :
    ∀ m, e.next = some m → m < g.edges.length := by
  intro m hm
  have h := hWF i (getE_lt hgi)
  unfold edgeOK at h
  simp only [hgi, hm] at h
  cases hgm : getE g m with
  | none => simp only [hgm] at h; simp at h
  | some em => exact getE_lt hgm

/-- Claim C4: `insertNode(e, p, k)` replaces the edge by two consecutive
edges sharing one new node: the first runs from the original `from` node
to the new node and its `next` is the second; the second, returned, edge
still occupies the original slot and points at the original `to` node;
the new node sits at the requested point; and the two replacement
lengths sum to the original length within integer rounding (the sum is
either the original length or one less). -/
theorem C4_insertNode_split (g : STGraph) (i : Nat) (e et : STEdge)
    (mid : Pt) (k : Int)
    (hWF : WF g) (hgi : getE g i = some e)
    (het : getE g e.twin = some et)
    (ht2 : e.twin ≠ i) (hp1 : e.prev ≠ some i) (hn1 : e.next ≠ some i)
    (hp2 : et.prev ≠ some e.twin) (hn2 : et.next ≠ some e.twin)
    (hsrc : e.src < g.nodes.length) (hdst : e.dst < g.nodes.length)
    (hseg : onSegment (posN g e.src) (posN g e.dst) mid) :
    (insertNode g i mid k).2 = i ∧
    (∃ e2, getE (insertNode g i mid k).1 i = some e2 ∧
      e2.src = g.nodes.length ∧ e2.dst = e.dst ∧
      e2.prev = some g.edges.length) ∧
    (∃ e1, getE (insertNode g i mid k).1 g.edges.length = some e1 ∧
      e1.src = e.src ∧ e1.dst = g.nodes.length ∧ e1.next = some i) ∧
    posN (insertNode g i mid k).1 g.nodes.length = mid ∧
    elen (insertNode g i mid k).1 g.edges.length +
        elen (insertNode g i mid k).1 i ≤ elen g i ∧
    elen g i ≤ elen (insertNode g i mid k).1 g.edges.length +
        elen (insertNode g i mid k).1 i + 1 := by
  have ht1 : et.twin = i := by
    obtain ⟨et2, het2, h2⟩ := WF_twin hWF hgi
    rw [het] at het2
    cases het2
    exact h2
  obtain ⟨g3, hsplit, hnodes, hpoly, hlen, hslots⟩ :=
    splitEdgeAt_getE { g with nodes := g.nodes ++ [some ⟨mid, 0, k⟩] } i
      (g.nodes.length) e et hgi het ht1 ht2 hp1 hn1 hp2 hn2
      (WF_prev_lt hWF hgi) (WF_next_lt hWF het)
  have hres : insertNode g i mid k = (g3, i) := by
    unfold insertNode
    simp only [hsplit]
  rw [hres]
  have hposNew : posN g3 g.nodes.length = mid := by
    rw [posN_eq_of_nodes hnodes]
    exact posN_append_self g ⟨mid, 0, k⟩
  have hposSrc : posN g3 e.src = posN g e.src := by
    rw [posN_eq_of_nodes hnodes]
    exact posN_append_lt g _ e.src hsrc
  have hposDst : posN g3 e.dst = posN g e.dst := by
    rw [posN_eq_of_nodes hnodes]
    exact posN_append_lt g _ e.dst hdst
  have hgi3 : getE g3 i =
      some { e with src := g.nodes.length, prev := some g.edges.length } := by
    rw [hslots i, if_pos rfl]
  have hLi : i < g.edges.length := getE_lt hgi
  have hLt : e.twin < g.edges.length := getE_lt het
  have hgL : getE g3 g.edges.length = some
      { src := e.src, dst := g.nodes.length, twin := g.edges.length + 1,
        next := some i,
        prev := if e.prev = some e.twin then some (g.edges.length + 1)
                else e.prev,
        role := e.role, central := e.central, source := e.source } := by
    rw [hslots g.edges.length, if_neg (by omega), if_neg (by omega),
      if_pos rfl]
  have helenL : elen g3 g.edges.length =
      vSize (psub mid (posN g e.src)) := by
    unfold elen
    rw [hgL]
    dsimp only
    rw [hposSrc, hposNew]
  have heleni : elen g3 i = vSize (psub (posN g e.dst) mid) := by
    unfold elen
    rw [hgi3]
    dsimp only
    rw [hposDst, hposNew]
  have heleng : elen g i =
      vSize (psub (posN g e.dst) (posN g e.src)) := by
    unfold elen
    rw [hgi]
  obtain ⟨D, hC, hD⟩ := onSegment_toNat hseg
  have hsq := sqrt_split hC hD
  refine ⟨rfl, ⟨_, hgi3, rfl, rfl, rfl⟩, ⟨_, hgL, rfl, rfl, rfl⟩,
    hposNew, ?_, ?_⟩
  · rw [helenL, heleni, heleng]
    unfold vSize
    simp only [isqrt_eq]
    exact hsq.1
  · rw [helenL, heleni, heleng]
    unfold vSize
    simp only [isqrt_eq]
    exact hsq.2

end STG

namespace STG

theorem C4_insertNode_split_witness :
    WF exChain ∧
    (insertNode exChain 0 (4, 0) 3).2 = 0 ∧
    elen (insertNode exChain 0 (4, 0) 3).1 4 +
      elen (insertNode exChain 0 (4, 0) 3).1 0 ≤ elen exChain 0 ∧
    elen exChain 0 ≤ elen (insertNode exChain 0 (4, 0) 3).1 4 +
      elen (insertNode exChain 0 (4, 0) 3).1 0 + 1 := by
  have h := C4_insertNode_split exChain 0
    ⟨0, 1, 1, some 2, some 1, EdgeRole.normal, true, 0⟩
    ⟨1, 0, 0, some 0, some 3, EdgeRole.normal, true, 0⟩
    (4, 0) 3 (by decide) (by decide) (by decide) (by decide) (by decide)
    (by decide) (by decide) (by decide) (by decide) (by decide) (by decide)
  exact ⟨by decide, h.1, h.2.2.2.2.1, h.2.2.2.2.2⟩

end STG

namespace STG

/-! ## Preservation of the pointer invariants (towards claim C1) -/

theorem edgeOK_iff_of_getE {g1 g2 : STGraph}
    (h : ∀ j, getE g1 j = getE g2 j) (i : Nat) :
    edgeOK g1 i = edgeOK g2 i := by
  unfold edgeOK
  rw [h i]
  cases getE g2 i with
  | none => rfl
  | some e =>
    dsimp only
    rw [h e.twin]
    cases e.prev with
    | none =>
      cases e.next with
      | none => rfl
      | some m => dsimp only; rw [h m]
    | some p =>
      dsimp only
      rw [h p]
      cases e.next with
      | none => rfl
      | some m => dsimp only; rw [h m]

theorem WF_killN (g : STGraph) (n : Nat) (hWF : WF g) : WF (killN g n) := by
  intro i hi
  rw [length_killN] at hi
  rw [edgeOK_iff_of_getE (getE_killN g n)]
  exact hWF i hi

theorem WF_retarget (g : STGraph) (b a : Nat) (hWF : WF g) :
    WF (retargetNode g b a) := by
  intro i hi
  rw [length_retarget] at hi
  have h := hWF i hi
  unfold edgeOK at h ⊢
  rw [getE_retarget]
  cases hgi : getE g i with
  | none => rfl
  | some e =>
    rw [hgi] at h
    dsimp only at h
    dsimp only [Option.map_some']
    have htwin : (renameNode b a e).twin = e.twin := rfl
    have hprev : (renameNode b a e).prev = e.prev := rfl
    have hnext : (renameNode b a e).next = e.next := rfl
    rw [htwin, hprev, hnext, getE_retarget]
    cases hgt : getE g e.twin with
    | none => rw [hgt] at h; simp at h
    | some et =>
      rw [hgt] at h
      dsimp only [Option.map_some']
      simp only [Bool.and_eq_true, beq_iff_eq] at h
      have h1 : (renameNode b a et).twin = et.twin := rfl
      rw [h1]
      refine (Bool.and_eq_true _ _).mpr ⟨(Bool.and_eq_true _ _).mpr
        ⟨by simp [h.1.1], ?_⟩, ?_⟩
      · cases hp : e.prev with
        | none => rfl
        | some p =>
          rw [hp] at h
          dsimp only at h ⊢
          rw [getE_retarget]
          cases hgp : getE g p with
          | none => rw [hgp] at h; simp at h
          | some ep =>
            rw [hgp] at h
            dsimp only [Option.map_some']
            have h2 : (renameNode b a ep).next = ep.next := rfl
            rw [h2]
            simp only [beq_iff_eq] at h ⊢
            exact h.1.2
      · cases hm : e.next with
        | none => rfl
        | some m =>
          rw [hm] at h
          dsimp only at h ⊢
          rw [getE_retarget]
          cases hgm : getE g m with
          | none => rw [hgm] at h; simp at h
          | some em =>
            rw [hgm] at h
            dsimp only [Option.map_some']
            have h2 : (renameNode b a em).prev = em.prev := rfl
            rw [h2]
            simp only [beq_iff_eq] at h ⊢
            exact h.2

theorem getE_spliceOut_char (g : STGraph) (i : Nat) (e : STEdge)
    (hgi : getE g i = some e) (j : Nat) :
    getE (spliceOut g i) j = (getE g j).map (fun ee =>
      { ee with
        next := if e.prev = some j then e.next else ee.next,
        prev := if e.next = some j then e.prev else ee.prev }) := by
  unfold spliceOut
  simp only [hgi]
  cases hp : e.prev with
  | none =>
    cases hn : e.next with
    | none =>
      dsimp only
      cases getE g j <;> simp
    | some m =>
      dsimp only
      unfold setPrevE
      rw [getE_updE]
      by_cases hj : j = m
      · subst hj
        rw [if_pos rfl]
        cases getE g j <;> simp
      · rw [if_neg hj]
        have hnm : ¬ ((some m : Option Nat) = some j) := by
          intro hc; exact hj (Option.some.inj hc).symm
        cases getE g j <;> simp [hnm]
  | some p =>
    cases hn : e.next with
    | none =>
      dsimp only
      unfold setNextE
      rw [getE_updE]
      by_cases hj : j = p
      · subst hj
        rw [if_pos rfl]
        cases getE g j <;> simp
      · rw [if_neg hj]
        have hnp : ¬ ((some p : Option Nat) = some j) := by
          intro hc; exact hj (Option.some.inj hc).symm
        cases getE g j <;> simp [hnp]
    | some m =>
      dsimp only
      unfold setNextE setPrevE
      simp only [getE_updE]
      by_cases hjm : j = m
      · by_cases hjp : j = p
        · subst hjm
          rw [← hjp]
          cases getE g j <;> simp
        · subst hjm
          have hnp : ¬ ((some p : Option Nat) = some j) := by
            intro hc; exact hjp (Option.some.inj hc).symm
          cases getE g j <;> simp [hjp, hnp]
      · have hnm : ¬ ((some m : Option Nat) = some j) := by
          intro hc; exact hjm (Option.some.inj hc).symm
        by_cases hjp : j = p
        · rw [← hjp]
          cases getE g j <;> simp [hjm, hnm]
        · have hnp : ¬ ((some p : Option Nat) = some j) := by
            intro hc; exact hjp (Option.some.inj hc).symm
          cases getE g j <;> simp [hjm, hjp, hnm, hnp]

end STG

namespace STG

theorem removeEdgePair_dead (g : STGraph) (i : Nat) (h : getE g i = none) :
    removeEdgePair g i = g := by
  unfold removeEdgePair
  simp only [h]

theorem removeEdgePair_getE_self (g : STGraph) (i : Nat) (e : STEdge)
    (hgi : getE g i = some e) (hself : e.twin = i) (j : Nat) :
    getE (removeEdgePair g i) j =
      if j = i then none
      else (getE g j).map (fun ee =>
        { ee with
          next := if e.prev = some j then e.next else ee.next,
          prev := if e.next = some j then e.prev else ee.prev }) := by
  unfold removeEdgePair
  simp only [hgi]
  rw [if_pos hself, getE_killE]
  by_cases hji : j = i
  · rw [if_pos hji, if_pos hji]
  · rw [if_neg hji, if_neg hji, getE_spliceOut_char g i e hgi j]

theorem removeEdgePair_getE (g : STGraph) (i : Nat) (e et : STEdge)
    (hgi : getE g i = some e) (hti : getE g e.twin = some et) (hne : e.twin ≠ i)
    (j : Nat) :
    getE (removeEdgePair g i) j =
      if j = i ∨ j = e.twin then none
      else (getE g j).map (fun ee =>
        { ee with
          next :=
            if (if e.next = some e.twin then e.prev else et.prev) = some j
            then (if e.prev = some e.twin then e.next else et.next)
            else if e.prev = some j then e.next else ee.next,
          prev :=
            if (if e.prev = some e.twin then e.next else et.next) = some j
            then (if e.next = some e.twin then e.prev else et.prev)
            else if e.next = some j then e.prev else ee.prev }) := by
  have h1 := getE_spliceOut_char g i e hgi
  have ht1 : getE (spliceOut g i) e.twin =
      some { et with
             next := if e.prev = some e.twin then e.next else et.next,
             prev := if e.next = some e.twin then e.prev else et.prev } := by
    rw [h1 e.twin, hti]; rfl
  have h2 := getE_spliceOut_char (spliceOut g i) e.twin _ ht1
  unfold removeEdgePair
  simp only [hgi]
  rw [if_neg hne]
  rw [getE_killE, getE_killE]
  by_cases hji : j = i
  · rw [if_pos hji, if_pos (Or.inl hji)]
  · rw [if_neg hji]
    by_cases hjt : j = e.twin
    · rw [if_pos hjt, if_pos (Or.inr hjt)]
    · rw [if_neg hjt, if_neg (fun h => h.elim hji hjt)]
      rw [h2 j, h1 j]
      cases getE g j with
      | none => rfl
      | some ee => rfl

end STG

namespace STG

theorem edgeOK_dead (g : STGraph) (j : Nat) (h : getE g j = none) :
    edgeOK g j = true := by
  unfold edgeOK
  simp only [h]

theorem edgeOK_intro (g : STGraph) (j : Nat) (ee : STEdge)
    (hj : getE g j = some ee)
    (ht : ∃ ec, getE g ee.twin = some ec ∧ ec.twin = j)
    (hp : ∀ q, ee.prev = some q → ∃ eq, getE g q = some eq ∧ eq.next = some j)
    (hn : ∀ q, ee.next = some q → ∃ eq, getE g q = some eq ∧ eq.prev = some j) :
    edgeOK g j = true := by
  unfold edgeOK
  simp only [hj]
  refine (Bool.and_eq_true _ _).mpr ⟨(Bool.and_eq_true _ _).mpr ⟨?_, ?_⟩, ?_⟩
  · obtain ⟨ec, hc1, hc2⟩ := ht
    simp only [hc1]
    simp [hc2]
  · cases hpp : ee.prev with
    | none => rfl
    | some q =>
      dsimp only
      obtain ⟨eq1, h1, h2⟩ := hp q hpp
      simp only [h1]
      simp [h2]
  · cases hnn : ee.next with
    | none => rfl
    | some q =>
      dsimp only
      obtain ⟨eq1, h1, h2⟩ := hn q hnn
      simp only [h1]
      simp [h2]

theorem WF_prev_law {g : STGraph} (hWF : WF g) {i : Nat} {e : STEdge}
    (hgi : getE g i = some e) {p : Nat} (hp : e.prev = some p) :
    ∃ ep, getE g p = some ep ∧ ep.next = some i := by
  have h := hWF i (getE_lt hgi)
  unfold edgeOK at h
  simp only [hgi, hp] at h
  cases hgp : getE g p with
  | none => simp only [hgp] at h; simp at h
  | some ep =>
    simp only [hgp] at h
    simp only [Bool.and_eq_true, beq_iff_eq] at h
    exact ⟨ep, rfl, h.1.2⟩

theorem WF_next_law {g : STGraph} (hWF : WF g) {i : Nat} {e : STEdge}
    (hgi : getE g i = some e) {m : Nat} (hm : e.next = some m) :
    ∃ em, getE g m = some em ∧ em.prev = some i := by
  have h := hWF i (getE_lt hgi)
  unfold edgeOK at h
  simp only [hgi, hm] at h
  cases hgm : getE g m with
  | none => simp only [hgm] at h; simp at h
  | some em =>
    simp only [hgm] at h
    simp only [Bool.and_eq_true, beq_iff_eq] at h
    exact ⟨em, rfl, h.2⟩

theorem getE_some_inj {g : STGraph} {q : Nat} {x y : STEdge}
    (h1 : getE g q = some x) (h2 : getE g q = some y) : x = y := by
  rw [h1] at h2
  exact Option.some.inj h2

end STG

namespace STG

theorem WF_removeEdgePair (g : STGraph) (i : Nat) (hWF : WF g) :
    WF (removeEdgePair g i) := by
  cases hgi : getE g i with
  | none =>
    rw [removeEdgePair_dead g i hgi]
    exact hWF
  | some e =>
    by_cases hself : e.twin = i
    · have char := removeEdgePair_getE_self g i e hgi hself
      have hRq : ∀ q eq, q ≠ i → getE g q = some eq →
          getE (removeEdgePair g i) q = some
            { eq with
              next := if e.prev = some q then e.next else eq.next,
              prev := if e.next = some q then e.prev else eq.prev } := by
        intro q eq h1 h3
        rw [char q, if_neg h1, h3]
        rfl
      intro j _
      by_cases hji : j = i
      · apply edgeOK_dead
        rw [char j, if_pos hji]
      · cases hgj : getE g j with
        | none =>
          apply edgeOK_dead
          rw [char j, if_neg hji, hgj]
          rfl
        | some ee =>
          refine edgeOK_intro _ j _ (hRq j ee hji hgj) ?_ ?_ ?_
          · obtain ⟨ec, hc1, hc2⟩ := WF_twin hWF hgj
            have ht1 : ee.twin ≠ i := by
              intro hq
              rw [hq, hgi] at hc1
              have he := Option.some.inj hc1
              rw [← he] at hc2
              rw [hself] at hc2
              exact hji hc2.symm
            exact ⟨_, hRq ee.twin ec ht1 hc1, hc2⟩
          · intro q hq
            dsimp only at hq
            by_cases hEn : e.next = some j
            · rw [if_pos hEn] at hq
              obtain ⟨eq1, h1, h2⟩ := WF_prev_law hWF hgi hq
              have hqi : q ≠ i := by
                intro h; subst h
                have he := getE_some_inj h1 hgi
                rw [he] at h2
                rw [hEn] at h2
                exact hji (Option.some.inj h2)
              refine ⟨_, hRq q eq1 hqi h1, ?_⟩
              dsimp only
              rw [if_pos hq]
              exact hEn
            · rw [if_neg hEn] at hq
              obtain ⟨eq1, h1, h2⟩ := WF_prev_law hWF hgj hq
              have hqi : q ≠ i := by
                intro h; subst h
                have he := getE_some_inj h1 hgi
                rw [he] at h2
                exact hEn h2
              refine ⟨_, hRq q eq1 hqi h1, ?_⟩
              dsimp only
              have hnp : ¬ (e.prev = some q) := by
                intro hc
                obtain ⟨eq2, h3, h4⟩ := WF_prev_law hWF hgi hc
                have h5 := getE_some_inj h1 h3
                rw [← h5] at h4
                rw [h2] at h4
                exact hji (Option.some.inj h4)
              rw [if_neg hnp]
              exact h2
          · intro q hq
            dsimp only at hq
            by_cases hEp : e.prev = some j
            · rw [if_pos hEp] at hq
              obtain ⟨eq1, h1, h2⟩ := WF_next_law hWF hgi hq
              have hqi : q ≠ i := by
                intro h; subst h
                have he := getE_some_inj h1 hgi
                rw [he] at h2
                rw [hEp] at h2
                exact hji (Option.some.inj h2)
              refine ⟨_, hRq q eq1 hqi h1, ?_⟩
              dsimp only
              rw [if_pos hq]
              exact hEp
            · rw [if_neg hEp] at hq
              obtain ⟨eq1, h1, h2⟩ := WF_next_law hWF hgj hq
              have hqi : q ≠ i := by
                intro h; subst h
                have he := getE_some_inj h1 hgi
                rw [he] at h2
                exact hEp h2
              refine ⟨_, hRq q eq1 hqi h1, ?_⟩
              dsimp only
              have hnn : ¬ (e.next = some q) := by
                intro hc
                obtain ⟨eq2, h3, h4⟩ := WF_next_law hWF hgi hc
                have h5 := getE_some_inj h1 h3
                rw [← h5] at h4
                rw [h2] at h4
                exact hji (Option.some.inj h4)
              rw [if_neg hnn]
              exact h2
    · obtain ⟨et, hti, htw⟩ := WF_twin hWF hgi
      have char := removeEdgePair_getE g i e et hgi hti hself
      have hRq : ∀ q eq, q ≠ i → q ≠ e.twin → getE g q = some eq →
          getE (removeEdgePair g i) q = some
            { eq with
              next :=
                if (if e.next = some e.twin then e.prev else et.prev) = some q
                then (if e.prev = some e.twin then e.next else et.next)
                else if e.prev = some q then e.next else eq.next,
              prev :=
                if (if e.prev = some e.twin then e.next else et.next) = some q
                then (if e.next = some e.twin then e.prev else et.prev)
                else if e.next = some q then e.prev else eq.prev } := by
        intro q eq h1 h2 h3
        rw [char q, if_neg (fun h => h.elim h1 h2), h3]
        rfl
      intro j _
      by_cases hji : j = i
      · apply edgeOK_dead
        rw [char j, if_pos (Or.inl hji)]
      · by_cases hjt : j = e.twin
        · apply edgeOK_dead
          rw [char j, if_pos (Or.inr hjt)]
        · cases hgj : getE g j with
          | none =>
            apply edgeOK_dead
            rw [char j, if_neg (fun h => h.elim hji hjt), hgj]
            rfl
          | some ee =>
            refine edgeOK_intro _ j _ (hRq j ee hji hjt hgj) ?_ ?_ ?_
            · obtain ⟨ec, hc1, hc2⟩ := WF_twin hWF hgj
              have ht1 : ee.twin ≠ i := by
                intro hsub
                rw [hsub, hgi] at hc1
                have he := Option.some.inj hc1
                rw [← he] at hc2
                exact hjt hc2.symm
              have ht2 : ee.twin ≠ e.twin := by
                intro hsub
                rw [hsub, hti] at hc1
                have he := Option.some.inj hc1
                rw [← he] at hc2
                rw [htw] at hc2
                exact hji hc2.symm
              exact ⟨_, hRq ee.twin ec ht1 ht2 hc1, hc2⟩
            · intro q hq
              dsimp only at hq
              by_cases hB : (if e.prev = some e.twin then e.next else et.next) = some j
              · rw [if_pos hB] at hq
                by_cases hco : e.next = some e.twin
                · rw [if_pos hco] at hq
                  obtain ⟨eq1, h1, h2⟩ := WF_prev_law hWF hgi hq
                  have hqi : q ≠ i := by
                    intro h; subst h
                    have he := getE_some_inj h1 hgi
                    rw [he] at h2
                    rw [hco] at h2
                    exact hself (Option.some.inj h2)
                  have hqt : q ≠ e.twin := by
                    intro h; subst h
                    rw [if_pos hq, hco] at hB
                    exact hjt (Option.some.inj hB).symm
                  refine ⟨_, hRq q eq1 hqi hqt h1, ?_⟩
                  dsimp only
                  rw [if_pos (by rw [if_pos hco]; exact hq)]
                  exact hB
                · rw [if_neg hco] at hq
                  obtain ⟨eq1, h1, h2⟩ := WF_prev_law hWF hti hq
                  have hqi : q ≠ i := by
                    intro h; subst h
                    have he := getE_some_inj h1 hgi
                    rw [he] at h2
                    exact hco h2
                  have hqt : q ≠ e.twin := by
                    intro h; subst h
                    have he := getE_some_inj h1 hti
                    rw [he] at h2
                    by_cases hcp : e.prev = some e.twin
                    · obtain ⟨eq2, h3, h4⟩ := WF_prev_law hWF hgi hcp
                      have h5 := getE_some_inj h3 hti
                      rw [h5] at h4
                      rw [h2] at h4
                      exact hself (Option.some.inj h4)
                    · rw [if_neg hcp] at hB
                      rw [h2] at hB
                      exact hjt (Option.some.inj hB).symm
                  refine ⟨_, hRq q eq1 hqi hqt h1, ?_⟩
                  dsimp only
                  rw [if_pos (by rw [if_neg hco]; exact hq)]
                  exact hB
              · by_cases hEn : e.next = some j
                · rw [if_neg hB, if_pos hEn] at hq
                  obtain ⟨eq1, h1, h2⟩ := WF_prev_law hWF hgi hq
                  have hqi : q ≠ i := by
                    intro h; subst h
                    have he := getE_some_inj h1 hgi
                    rw [he] at h2
                    rw [hEn] at h2
                    exact hji (Option.some.inj h2)
                  have hqt : q ≠ e.twin := by
                    intro h; subst h
                    rw [if_pos hq] at hB
                    exact hB hEn
                  refine ⟨_, hRq q eq1 hqi hqt h1, ?_⟩
                  dsimp only
                  have hA : ¬ ((if e.next = some e.twin then e.prev else et.prev) = some q) := by
                    by_cases hco : e.next = some e.twin
                    · rw [hco] at hEn
                      exact absurd (Option.some.inj hEn).symm hjt
                    · rw [if_neg hco]
                      intro hc
                      obtain ⟨eq2, h3, h4⟩ := WF_prev_law hWF hti hc
                      have h5 := getE_some_inj h1 h3
                      rw [← h5] at h4
                      rw [h2] at h4
                      exact hself (Option.some.inj h4).symm
                  rw [if_neg hA, if_pos hq]
                  exact hEn
                · rw [if_neg hB, if_neg hEn] at hq
                  obtain ⟨eq1, h1, h2⟩ := WF_prev_law hWF hgj hq
                  have hqi : q ≠ i := by
                    intro h; subst h
                    have he := getE_some_inj h1 hgi
                    rw [he] at h2
                    exact hEn h2
                  have hqt : q ≠ e.twin := by
                    intro h; subst h
                    have he := getE_some_inj h1 hti
                    rw [he] at h2
                    by_cases hcp : e.prev = some e.twin
                    · obtain ⟨eq2, h3, h4⟩ := WF_prev_law hWF hgi hcp
                      have h5 := getE_some_inj h3 hti
                      rw [h5] at h4
                      rw [h2] at h4
                      exact hji (Option.some.inj h4)
                    · rw [if_neg hcp] at hB
                      exact hB h2
                  refine ⟨_, hRq q eq1 hqi hqt h1, ?_⟩
                  dsimp only
                  have hnp : ¬ (e.prev = some q) := by
                    intro hc
                    obtain ⟨eq2, h3, h4⟩ := WF_prev_law hWF hgi hc
                    have h5 := getE_some_inj h1 h3
                    rw [← h5] at h4
                    rw [h2] at h4
                    exact hji (Option.some.inj h4)
                  have hA : ¬ ((if e.next = some e.twin then e.prev else et.prev) = some q) := by
                    by_cases hco : e.next = some e.twin
                    · rw [if_pos hco]
                      exact hnp
                    · rw [if_neg hco]
                      intro hc
                      obtain ⟨eq2, h3, h4⟩ := WF_prev_law hWF hti hc
                      have h5 := getE_some_inj h1 h3
                      rw [← h5] at h4
                      rw [h2] at h4
                      exact hjt (Option.some.inj h4)
                  rw [if_neg hA, if_neg hnp]
                  exact h2
            · intro q hq
              dsimp only at hq
              by_cases hA : (if e.next = some e.twin then e.prev else et.prev) = some j
              · rw [if_pos hA] at hq
                by_cases hco : e.prev = some e.twin
                · rw [if_pos hco] at hq
                  obtain ⟨eq1, h1, h2⟩ := WF_next_law hWF hgi hq
                  have hqi : q ≠ i := by
                    intro h; subst h
                    have he := getE_some_inj h1 hgi
                    rw [he] at h2
                    rw [hco] at h2
                    exact hself (Option.some.inj h2)
                  have hqt : q ≠ e.twin := by
                    intro h; subst h
                    rw [if_pos hq, hco] at hA
                    exact hjt (Option.some.inj hA).symm
                  refine ⟨_, hRq q eq1 hqi hqt h1, ?_⟩
                  dsimp only
                  rw [if_pos (by rw [if_pos hco]; exact hq)]
                  exact hA
                · rw [if_neg hco] at hq
                  obtain ⟨eq1, h1, h2⟩ := WF_next_law hWF hti hq
                  have hqi : q ≠ i := by
                    intro h; subst h
                    have he := getE_some_inj h1 hgi
                    rw [he] at h2
                    exact hco h2
                  have hqt : q ≠ e.twin := by
                    intro h; subst h
                    have he := getE_some_inj h1 hti
                    rw [he] at h2
                    by_cases hcn : e.next = some e.twin
                    · obtain ⟨eq2, h3, h4⟩ := WF_next_law hWF hgi hcn
                      have h5 := getE_some_inj h3 hti
                      rw [h5] at h4
                      rw [h2] at h4
                      exact hself (Option.some.inj h4)
                    · rw [if_neg hcn] at hA
                      rw [h2] at hA
                      exact hjt (Option.some.inj hA).symm
                  refine ⟨_, hRq q eq1 hqi hqt h1, ?_⟩
                  dsimp only
                  rw [if_pos (by rw [if_neg hco]; exact hq)]
                  exact hA
              · by_cases hEp : e.prev = some j
                · rw [if_neg hA, if_pos hEp] at hq
                  obtain ⟨eq1, h1, h2⟩ := WF_next_law hWF hgi hq
                  have hqi : q ≠ i := by
                    intro h; subst h
                    have he := getE_some_inj h1 hgi
                    rw [he] at h2
                    rw [hEp] at h2
                    exact hji (Option.some.inj h2)
                  have hqt : q ≠ e.twin := by
                    intro h; subst h
                    rw [if_pos hq] at hA
                    exact hA hEp
                  refine ⟨_, hRq q eq1 hqi hqt h1, ?_⟩
                  dsimp only
                  have hB : ¬ ((if e.prev = some e.twin then e.next else et.next) = some q) := by
                    by_cases hco : e.prev = some e.twin
                    · rw [hco] at hEp
                      exact absurd (Option.some.inj hEp).symm hjt
                    · rw [if_neg hco]
                      intro hc
                      obtain ⟨eq2, h3, h4⟩ := WF_next_law hWF hti hc
                      have h5 := getE_some_inj h1 h3
                      rw [← h5] at h4
                      rw [h2] at h4
                      exact hself (Option.some.inj h4).symm
                  rw [if_neg hB, if_pos hq]
                  exact hEp
                · rw [if_neg hA, if_neg hEp] at hq
                  obtain ⟨eq1, h1, h2⟩ := WF_next_law hWF hgj hq
                  have hqi : q ≠ i := by
                    intro h; subst h
                    have he := getE_some_inj h1 hgi
                    rw [he] at h2
                    exact hEp h2
                  have hqt : q ≠ e.twin := by
                    intro h; subst h
                    have he := getE_some_inj h1 hti
                    rw [he] at h2
                    by_cases hcn : e.next = some e.twin
                    · obtain ⟨eq2, h3, h4⟩ := WF_next_law hWF hgi hcn
                      have h5 := getE_some_inj h3 hti
                      rw [h5] at h4
                      rw [h2] at h4
                      exact hji (Option.some.inj h4)
                    · rw [if_neg hcn] at hA
                      exact hA h2
                  refine ⟨_, hRq q eq1 hqi hqt h1, ?_⟩
                  dsimp only
                  have hnn : ¬ (e.next = some q) := by
                    intro hc
                    obtain ⟨eq2, h3, h4⟩ := WF_next_law hWF hgi hc
                    have h5 := getE_some_inj h1 h3
                    rw [← h5] at h4
                    rw [h2] at h4
                    exact hji (Option.some.inj h4)
                  have hB : ¬ ((if e.prev = some e.twin then e.next else et.next) = some q) := by
                    by_cases hco : e.prev = some e.twin
                    · rw [if_pos hco]
                      exact hnn
                    · rw [if_neg hco]
                      intro hc
                      obtain ⟨eq2, h3, h4⟩ := WF_next_law hWF hti hc
                      have h5 := getE_some_inj h1 h3
                      rw [← h5] at h4
                      rw [h2] at h4
                      exact hjt (Option.some.inj h4)
                  rw [if_neg hB, if_neg hnn]
                  exact h2

end STG

namespace STG

theorem WF_cleanupSelfLoops (g : STGraph) (hWF : WF g) :
    WF (cleanupSelfLoops g) := by
  unfold cleanupSelfLoops
  refine foldl_pres _ ?_ _ _ hWF
  intro h a hP
  by_cases hc : (liveE h a && srcOf h a == dstOf h a && !protPair h a) = true
  · rw [if_pos hc]
    exact WF_removeEdgePair h a hP
  · rw [if_neg hc]
    exact hP

theorem WF_singleStep (g : STGraph) (i : Nat) (hWF : WF g) :
    WF (singleStep g i) := by
  unfold singleStep
  cases hgi : getE g i with
  | none => exact hWF
  | some e =>
    dsimp only
    apply WF_cleanupSelfLoops
    by_cases hd : e.dst = e.src
    · rw [if_pos hd]
      exact WF_removeEdgePair g i hWF
    · rw [if_neg hd]
      exact WF_killN _ _ (WF_retarget _ _ _ (WF_removeEdgePair g i hWF))

theorem WF_quadStep (g : STGraph) (i : Nat) (hWF : WF g) :
    WF (quadStep g i) := by
  unfold quadStep
  cases hq : quadSlotsOf g i with
  | none => exact hWF
  | some q =>
    dsimp only
    apply WF_cleanupSelfLoops
    refine foldl_pres _ ?_ _ _ ?_
    · intro h a hP
      exact WF_killN _ _ (WF_retarget _ _ _ hP)
    · exact foldl_pres _ (fun h a hP => WF_removeEdgePair h a hP) _ _ hWF

theorem WF_collapseFuel (f : Nat) (g : STGraph) (d : Int) (hWF : WF g) :
    WF (collapseFuel f g d) := by
  induction f generalizing g with
  | zero => exact hWF
  | succ f ih =>
    unfold collapseFuel
    cases hfe : findEligible g d with
    | none => exact hWF
    | some p =>
      cases p with
      | mk j b =>
        cases b
        · exact ih _ (WF_singleStep g j hWF)
        · exact ih _ (WF_quadStep g j hWF)

theorem WF_collapseSmallEdges (g : STGraph) (d : Int) (hWF : WF g) :
    WF (collapseSmallEdges g d) := by
  unfold collapseSmallEdges
  exact WF_collapseFuel _ g d hWF

end STG

namespace STG

theorem splitEdgeAt_some_inv {g : STGraph} {i n : Nat} {x : STGraph × Nat × Nat}
    (hs : splitEdgeAt g i n = some x) :
    ∃ e et, getE g i = some e ∧ getE g e.twin = some et ∧
      et.twin = i ∧ e.twin ≠ i ∧ e.prev ≠ some i ∧ e.next ≠ some i ∧
      et.prev ≠ some e.twin ∧ et.next ≠ some e.twin := by
  unfold splitEdgeAt at hs
  cases hgi : getE g i with
  | none => rw [hgi] at hs; exact absurd hs (by simp)
  | some e =>
    rw [hgi] at hs
    dsimp only at hs
    cases hti : getE g e.twin with
    | none => rw [hti] at hs; exact absurd hs (by simp)
    | some et =>
      rw [hti] at hs
      dsimp only at hs
      by_cases hc : (decide (e.twin = i) || decide (et.twin ≠ i) ||
          decide (e.prev = some i) || decide (e.next = some i) ||
          decide (et.prev = some e.twin) ||
          decide (et.next = some e.twin)) = true
      · rw [if_pos hc] at hs
        exact absurd hs (by simp)
      · simp only [Bool.or_eq_true, decide_eq_true_eq, not_or, not_not] at hc
        exact ⟨e, et, rfl, hti, hc.1.1.1.1.2, hc.1.1.1.1.1, hc.1.1.1.2,
          hc.1.1.2, hc.1.2, hc.2⟩

end STG

namespace STG

theorem WF_splitEdgeAt {g : STGraph} {i n : Nat} {g3 : STGraph} {a b : Nat}
    (hWF : WF g) (hs : splitEdgeAt g i n = some (g3, a, b)) : WF g3 := by
  obtain ⟨e, et, hgi, hti, ht1, ht2, hp1, hn1, hp2, hn2⟩ := splitEdgeAt_some_inv hs
  have hpl : ∀ p, e.prev = some p → p < g.edges.length := WF_prev_lt hWF hgi
  have hml : ∀ m, et.next = some m → m < g.edges.length := WF_next_lt hWF hti
  obtain ⟨g3', heq, hnodes, hpoly, hlen, hchar⟩ :=
    splitEdgeAt_getE g i n e et hgi hti ht1 ht2 hp1 hn1 hp2 hn2 hpl hml
  rw [heq] at hs
  injection hs with hs1
  have hg3 : g3 = g3' := (congrArg Prod.fst hs1).symm
  subst hg3
  have hLi : i < g.edges.length := getE_lt hgi
  have hLt : e.twin < g.edges.length := getE_lt hti
  have hiL : i ≠ g.edges.length := Nat.ne_of_lt hLi
  have hiL1 : i ≠ g.edges.length + 1 := Nat.ne_of_lt (Nat.lt_succ_of_lt hLi)
  have htL : e.twin ≠ g.edges.length := Nat.ne_of_lt hLt
  have htL1 : e.twin ≠ g.edges.length + 1 := Nat.ne_of_lt (Nat.lt_succ_of_lt hLt)
  have hsI : getE g3 i = some { e with src := n, prev := some g.edges.length } := by
    rw [hchar i, if_pos rfl]
  have hsT : getE g3 e.twin =
      some { et with dst := n, next := some (g.edges.length + 1) } := by
    rw [hchar e.twin, if_neg ht2, if_pos rfl]
  have hsL : getE g3 g.edges.length = some
      { src := e.src, dst := n, twin := g.edges.length + 1, next := some i,
        prev := if e.prev = some e.twin then some (g.edges.length + 1)
                else e.prev,
        role := e.role, central := e.central, source := e.source } := by
    rw [hchar g.edges.length, if_neg (Ne.symm hiL), if_neg (Ne.symm htL),
      if_pos rfl]
  have hsL1 : getE g3 (g.edges.length + 1) = some
      { src := n, dst := et.dst, twin := g.edges.length,
        next := if et.next = some i then some g.edges.length else et.next,
        prev := some e.twin,
        role := et.role, central := et.central, source := et.source } := by
    rw [hchar (g.edges.length + 1), if_neg (Ne.symm hiL1),
      if_neg (Ne.symm htL1), if_neg (by omega), if_pos rfl]
  have hsO : ∀ j ee, j ≠ i → j ≠ e.twin → j ≠ g.edges.length →
      j ≠ g.edges.length + 1 → getE g j = some ee →
      getE g3 j = some
        { ee with
          next := if e.prev = some j then some g.edges.length else ee.next,
          prev := if et.next = some j then some (g.edges.length + 1)
                  else ee.prev } := by
    intro j ee h1 h2 h3 h4 h5
    rw [hchar j, if_neg h1, if_neg h2, if_neg h3, if_neg h4, h5]
    rfl
  intro j _
  by_cases hji : j = i
  · subst hji
    refine edgeOK_intro _ j _ hsI ?_ ?_ ?_
    · exact ⟨_, hsT, ht1⟩
    · intro q hq
      have hqL : q = g.edges.length := (Option.some.inj hq).symm
      subst hqL
      exact ⟨_, hsL, rfl⟩
    · intro q hq
      have hq' : e.next = some q := hq
      obtain ⟨em, hm1, hm2⟩ := WF_next_law hWF hgi hq'
      by_cases hqt : q = e.twin
      · subst hqt
        have he := getE_some_inj hm1 hti
        rw [he] at hm2
        exact ⟨_, hsT, hm2⟩
      · have hqi : q ≠ j := by
          intro hcc; subst hcc; exact hn1 hq'
        have hqlt : q < g.edges.length := WF_next_lt hWF hgi q hq'
        refine ⟨_, hsO q em hqi hqt (Nat.ne_of_lt hqlt)
          (Nat.ne_of_lt (Nat.lt_succ_of_lt hqlt)) hm1, ?_⟩
        dsimp only
        have hnc : ¬ (et.next = some q) := by
          intro hcc
          obtain ⟨x, hx1, hx2⟩ := WF_next_law hWF hti hcc
          have hxe := getE_some_inj hm1 hx1
          rw [← hxe] at hx2
          rw [hm2] at hx2
          exact ht2 (Option.some.inj hx2).symm
        rw [if_neg hnc]
        exact hm2
  · by_cases hjt : j = e.twin
    · subst hjt
      refine edgeOK_intro _ e.twin _ hsT ?_ ?_ ?_
      · rw [ht1]
        exact ⟨_, hsI, rfl⟩
      · intro q hq
        have hq' : et.prev = some q := hq
        obtain ⟨eq1, h1, h2⟩ := WF_prev_law hWF hti hq'
        by_cases hqi : q = i
        · subst hqi
          have he := getE_some_inj h1 hgi
          rw [he] at h2
          exact ⟨_, hsI, h2⟩
        · have hqt : q ≠ e.twin := by
            intro hcc; subst hcc; exact hp2 hq'
          have hqlt : q < g.edges.length := WF_prev_lt hWF hti q hq'
          refine ⟨_, hsO q eq1 hqi hqt (Nat.ne_of_lt hqlt)
            (Nat.ne_of_lt (Nat.lt_succ_of_lt hqlt)) h1, ?_⟩
          dsimp only
          have hnc : ¬ (e.prev = some q) := by
            intro hcc
            obtain ⟨x, hx1, hx2⟩ := WF_prev_law hWF hgi hcc
            have hxe := getE_some_inj h1 hx1
            rw [← hxe] at hx2
            rw [h2] at hx2
            exact ht2 (Option.some.inj hx2)
          rw [if_neg hnc]
          exact h2
      · intro q hq
        have hqL : q = g.edges.length + 1 := (Option.some.inj hq).symm
        subst hqL
        exact ⟨_, hsL1, rfl⟩
    · by_cases hjL : j = g.edges.length
      · subst hjL
        refine edgeOK_intro _ g.edges.length _ hsL ?_ ?_ ?_
        · exact ⟨_, hsL1, rfl⟩
        · intro q hq
          dsimp only at hq
          by_cases hpc : e.prev = some e.twin
          · rw [if_pos hpc] at hq
            have hqL : q = g.edges.length + 1 := (Option.some.inj hq).symm
            subst hqL
            refine ⟨_, hsL1, ?_⟩
            dsimp only
            obtain ⟨x, hx1, hx2⟩ := WF_prev_law hWF hgi hpc
            have hxe := getE_some_inj hx1 hti
            rw [hxe] at hx2
            rw [if_pos hx2]
          · rw [if_neg hpc] at hq
            obtain ⟨ep, h1, h2⟩ := WF_prev_law hWF hgi hq
            have hqi : q ≠ i := by
              intro hcc; subst hcc; exact hp1 hq
            have hqlt : q < g.edges.length := hpl q hq
            refine ⟨_, hsO q ep hqi (fun hcc => hpc (hcc ▸ hq))
              (Nat.ne_of_lt hqlt)
              (Nat.ne_of_lt (Nat.lt_succ_of_lt hqlt)) h1, ?_⟩
            dsimp only
            rw [if_pos hq]
        · intro q hq
          have hqi : q = i := (Option.some.inj hq).symm
          subst hqi
          exact ⟨_, hsI, rfl⟩
      · by_cases hjL1 : j = g.edges.length + 1
        · subst hjL1
          refine edgeOK_intro _ (g.edges.length + 1) _ hsL1 ?_ ?_ ?_
          · exact ⟨_, hsL, rfl⟩
          · intro q hq
            have hqt : q = e.twin := (Option.some.inj hq).symm
            subst hqt
            exact ⟨_, hsT, rfl⟩
          · intro q hq
            dsimp only at hq
            by_cases hnc : et.next = some i
            · rw [if_pos hnc] at hq
              have hqL : q = g.edges.length := (Option.some.inj hq).symm
              subst hqL
              refine ⟨_, hsL, ?_⟩
              dsimp only
              obtain ⟨x, hx1, hx2⟩ := WF_next_law hWF hti hnc
              have hxe := getE_some_inj hx1 hgi
              rw [hxe] at hx2
              rw [if_pos hx2]
            · rw [if_neg hnc] at hq
              obtain ⟨em, h1, h2⟩ := WF_next_law hWF hti hq
              have hqt : q ≠ e.twin := by
                intro hcc; subst hcc; exact hn2 hq
              have hqlt : q < g.edges.length := hml q hq
              refine ⟨_, hsO q em (fun hcc => hnc (hcc ▸ hq)) hqt
                (Nat.ne_of_lt hqlt)
                (Nat.ne_of_lt (Nat.lt_succ_of_lt hqlt)) h1, ?_⟩
              dsimp only
              rw [if_pos hq]
        · cases hgj : getE g j with
          | none =>
            apply edgeOK_dead
            rw [hchar j, if_neg hji, if_neg hjt, if_neg hjL, if_neg hjL1, hgj]
            rfl
          | some ee =>
            refine edgeOK_intro _ j _ (hsO j ee hji hjt hjL hjL1 hgj) ?_ ?_ ?_
            · obtain ⟨ec, hc1, hc2⟩ := WF_twin hWF hgj
              have ht1' : ee.twin ≠ i := by
                intro hcc
                rw [hcc, hgi] at hc1
                have he := Option.some.inj hc1
                rw [← he] at hc2
                exact hjt hc2.symm
              have ht2' : ee.twin ≠ e.twin := by
                intro hcc
                rw [hcc, hti] at hc1
                have he := Option.some.inj hc1
                rw [← he] at hc2
                rw [ht1] at hc2
                exact hji hc2.symm
              have htlt : ee.twin < g.edges.length := getE_lt hc1
              refine ⟨_, hsO ee.twin ec ht1' ht2' (Nat.ne_of_lt htlt)
                (Nat.ne_of_lt (Nat.lt_succ_of_lt htlt)) hc1, hc2⟩
            · intro q hq
              dsimp only at hq
              by_cases hbc : et.next = some j
              · rw [if_pos hbc] at hq
                have hqL : q = g.edges.length + 1 := (Option.some.inj hq).symm
                subst hqL
                refine ⟨_, hsL1, ?_⟩
                dsimp only
                have hni : ¬ (et.next = some i) := by
                  intro hcc
                  rw [hbc] at hcc
                  exact hji (Option.some.inj hcc)
                rw [if_neg hni]
                exact hbc
              · rw [if_neg hbc] at hq
                obtain ⟨eq1, h1, h2⟩ := WF_prev_law hWF hgj hq
                by_cases hqi : q = i
                · subst hqi
                  have he := getE_some_inj h1 hgi
                  rw [he] at h2
                  exact ⟨_, hsI, h2⟩
                · have hqt : q ≠ e.twin := by
                    intro hcc; subst hcc
                    have he := getE_some_inj h1 hti
                    rw [he] at h2
                    exact hbc h2
                  have hqlt : q < g.edges.length := getE_lt h1
                  refine ⟨_, hsO q eq1 hqi hqt (Nat.ne_of_lt hqlt)
                    (Nat.ne_of_lt (Nat.lt_succ_of_lt hqlt)) h1, ?_⟩
                  dsimp only
                  have hnc : ¬ (e.prev = some q) := by
                    intro hcc
                    obtain ⟨x, hx1, hx2⟩ := WF_prev_law hWF hgi hcc
                    have hxe := getE_some_inj h1 hx1
                    rw [← hxe] at hx2
                    rw [h2] at hx2
                    exact hji (Option.some.inj hx2)
                  rw [if_neg hnc]
                  exact h2
            · intro q hq
              dsimp only at hq
              by_cases hac : e.prev = some j
              · rw [if_pos hac] at hq
                have hqL : q = g.edges.length := (Option.some.inj hq).symm
                subst hqL
                refine ⟨_, hsL, ?_⟩
                dsimp only
                have hnt : ¬ (e.prev = some e.twin) := by
                  intro hcc
                  rw [hac] at hcc
                  exact hjt (Option.some.inj hcc)
                rw [if_neg hnt]
                exact hac
              · rw [if_neg hac] at hq
                obtain ⟨eq1, h1, h2⟩ := WF_next_law hWF hgj hq
                by_cases hqt : q = e.twin
                · subst hqt
                  have he := getE_some_inj h1 hti
                  rw [he] at h2
                  exact ⟨_, hsT, h2⟩
                · have hqi : q ≠ i := by
                    intro hcc; subst hcc
                    have he := getE_some_inj h1 hgi
                    rw [he] at h2
                    exact hac h2
                  have hqlt : q < g.edges.length := getE_lt h1
                  refine ⟨_, hsO q eq1 hqi hqt (Nat.ne_of_lt hqlt)
                    (Nat.ne_of_lt (Nat.lt_succ_of_lt hqlt)) h1, ?_⟩
                  dsimp only
                  have hnc : ¬ (et.next = some q) := by
                    intro hcc
                    obtain ⟨x, hx1, hx2⟩ := WF_next_law hWF hti hcc
                    have hxe := getE_some_inj h1 hx1
                    rw [← hxe] at hx2
                    rw [h2] at hx2
                    exact hjt (Option.some.inj hx2)
                  rw [if_neg hnc]
                  exact h2

end STG

namespace STG

theorem getElem_build1 {α : Type} (l : List α) (i : Nat) (x a b : α)
    (hi : i < l.length) :
    ((l.set i x) ++ [a, b])[i]? = some x ∧
    ((l.set i x) ++ [a, b])[l.length]? = some a ∧
    ((l.set i x) ++ [a, b])[l.length + 1]? = some b ∧
    ∀ j, j ≠ i → j ≠ l.length → j ≠ l.length + 1 →
      ((l.set i x) ++ [a, b])[j]? = l[j]? := by
  refine ⟨?_, ?_, ?_, ?_⟩
  · rw [List.getElem?_append, if_pos (by simpa using hi), List.getElem?_set]
    simp [hi]
  · rw [List.getElem?_append, if_neg (by simp)]
    simp
  · rw [List.getElem?_append, if_neg (by simp)]
    simp
  · intro j h1 h2 h3
    by_cases hj : j < l.length
    · rw [List.getElem?_append, if_pos (by simpa using hj),
        List.getElem?_set_ne (Ne.symm h1)]
    · rw [List.getElem?_append, if_neg (by simp [hj])]
      rw [List.getElem?_eq_none (by simp; omega),
        List.getElem?_eq_none (by omega)]

theorem getE_build1 (g : STGraph) (N : List (Option STNode)) (pe : Nat)
    (x a b : STEdge) (hpe : pe < g.edges.length) (j : Nat) :
    getE (STGraph.mk N (g.edges.set pe (some x) ++ [some a, some b])
        g.poly) j =
      if j = pe then some x
      else if j = g.edges.length then some a
      else if j = g.edges.length + 1 then some b
      else getE g j := by
  obtain ⟨k1, k2, k3, k4⟩ :=
    getElem_build1 g.edges pe (some x) (some a) (some b) hpe
  have hgetE : getE (STGraph.mk N
        (g.edges.set pe (some x) ++ [some a, some b]) g.poly) j =
      match (g.edges.set pe (some x) ++ [some a, some b])[j]? with
      | some (some y) => some y
      | _ => none := rfl
  rw [hgetE]
  by_cases h1 : j = pe
  · subst h1
    rw [k1, if_pos rfl]
  · rw [if_neg h1]
    by_cases h2 : j = g.edges.length
    · subst h2
      rw [k2, if_pos rfl]
    · rw [if_neg h2]
      by_cases h3 : j = g.edges.length + 1
      · subst h3
        rw [k3, if_pos rfl]
      · rw [if_neg h3, k4 j h1 h2 h3]
        rfl

end STG

namespace STG

theorem WF_makeRib (g : STGraph) (prevE : Nat) (sp ep : Pt) (isAdj : Bool)
    (hWF : WF g) : WF (makeRib g prevE sp ep isAdj).1 := by
  unfold makeRib
  cases hge : getE g prevE with
  | none => exact hWF
  | some e =>
    dsimp only
    by_cases hskip : (decide ((if isAdj then nearestEndpoint (posN g e.dst) sp ep
          else closestOnSegment (posN g e.dst) sp ep) = posN g e.dst) ||
          decide (e.next = some prevE)) = true
    · rw [if_pos hskip]
      exact hWF
    · rw [if_neg hskip]
      have hnp : e.next ≠ some prevE := by
        intro hcc
        exact hskip (by simp [hcc])
      have hplt : prevE < g.edges.length := getE_lt hge
      have hpM : prevE ≠ g.edges.length := Nat.ne_of_lt hplt
      have hpM1 : prevE ≠ g.edges.length + 1 :=
        Nat.ne_of_lt (Nat.lt_succ_of_lt hplt)
      have main : ∀ G : STGraph,
          (∀ j, getE G j =
            if j = prevE then some { e with next := some g.edges.length }
            else if j = g.edges.length then some
              { src := e.dst, dst := g.nodes.length,
                twin := g.edges.length + 1,
                next := some (g.edges.length + 1), prev := some prevE,
                role := EdgeRole.rib, central := false, source := e.source }
            else if j = g.edges.length + 1 then some
              { src := g.nodes.length, dst := e.dst,
                twin := g.edges.length,
                next := e.next, prev := some g.edges.length,
                role := EdgeRole.rib, central := false, source := e.source }
            else if e.next = some j then
              (getE g j).map
                (fun ee => { ee with prev := some (g.edges.length + 1) })
            else getE g j) → WF G := by
        intro G hchar
        have hsP : getE G prevE =
            some { e with next := some g.edges.length } := by
          rw [hchar prevE, if_pos rfl]
        have hsM : getE G g.edges.length = some
            { src := e.dst, dst := g.nodes.length,
              twin := g.edges.length + 1,
              next := some (g.edges.length + 1), prev := some prevE,
              role := EdgeRole.rib, central := false,
              source := e.source } := by
          rw [hchar g.edges.length, if_neg (Ne.symm hpM), if_pos rfl]
        have hsM1 : getE G (g.edges.length + 1) = some
            { src := g.nodes.length, dst := e.dst,
              twin := g.edges.length,
              next := e.next, prev := some g.edges.length,
              role := EdgeRole.rib, central := false,
              source := e.source } := by
          rw [hchar (g.edges.length + 1), if_neg (Ne.symm hpM1),
            if_neg (by omega), if_pos rfl]
        have hGq : ∀ q eq1, getE g q = some eq1 →
            ∃ w, getE G q = some w ∧ w.twin = eq1.twin ∧
              w.next = (if q = prevE then some g.edges.length
                        else eq1.next) ∧
              w.prev = (if e.next = some q ∧ q ≠ prevE
                        then some (g.edges.length + 1) else eq1.prev) := by
          intro q eq1 hq
          have hqlt : q < g.edges.length := getE_lt hq
          have hqM : q ≠ g.edges.length := Nat.ne_of_lt hqlt
          have hqM1 : q ≠ g.edges.length + 1 :=
            Nat.ne_of_lt (Nat.lt_succ_of_lt hqlt)
          by_cases hqp : q = prevE
          · subst hqp
            have he := getE_some_inj hq hge
            refine ⟨_, hsP, ?_, ?_, ?_⟩
            · rw [he]
            · rw [if_pos rfl]
            · rw [if_neg (fun h => h.2 rfl), he]
          · by_cases hen : e.next = some q
            · refine ⟨{ eq1 with prev := some (g.edges.length + 1) },
                ?_, rfl, ?_, ?_⟩
              · rw [hchar q, if_neg hqp, if_neg hqM, if_neg hqM1,
                  if_pos hen, hq]
                rfl
              · rw [if_neg hqp]
              · rw [if_pos ⟨hen, hqp⟩]
            · refine ⟨eq1, ?_, rfl, ?_, ?_⟩
              · rw [hchar q, if_neg hqp, if_neg hqM, if_neg hqM1,
                  if_neg hen, hq]
              · rw [if_neg hqp]
              · rw [if_neg (fun h => hen h.1)]
        intro j _
        by_cases hjp : j = prevE
        · rw [hjp]
          refine edgeOK_intro _ prevE _ hsP ?_ ?_ ?_
          · obtain ⟨ec, hc1, hc2⟩ := WF_twin hWF hge
            obtain ⟨w, hw1, hw2, _, _⟩ := hGq e.twin ec hc1
            exact ⟨w, hw1, hw2.trans hc2⟩
          · intro q hq
            have hq' : e.prev = some q := hq
            obtain ⟨eq1, h1, h2⟩ := WF_prev_law hWF hge hq'
            obtain ⟨w, hw1, _, hw3, _⟩ := hGq q eq1 h1
            refine ⟨w, hw1, ?_⟩
            rw [hw3]
            have hqp : q ≠ prevE := by
              intro hcc; subst hcc
              have he := getE_some_inj h1 hge
              rw [he] at h2
              exact hnp h2
            rw [if_neg hqp]
            exact h2
          · intro q hq
            have h := (Option.some.inj hq).symm
            subst h
            exact ⟨_, hsM, rfl⟩
        · by_cases hjM : j = g.edges.length
          · rw [hjM]
            refine edgeOK_intro _ g.edges.length _ hsM ?_ ?_ ?_
            · exact ⟨_, hsM1, rfl⟩
            · intro q hq
              have h := (Option.some.inj hq).symm
              subst h
              exact ⟨_, hsP, rfl⟩
            · intro q hq
              have h := (Option.some.inj hq).symm
              subst h
              exact ⟨_, hsM1, rfl⟩
          · by_cases hjM1 : j = g.edges.length + 1
            · rw [hjM1]
              refine edgeOK_intro _ (g.edges.length + 1) _ hsM1 ?_ ?_ ?_
              · exact ⟨_, hsM, rfl⟩
              · intro q hq
                have h := (Option.some.inj hq).symm
                subst h
                exact ⟨_, hsM, rfl⟩
              · intro q hq
                have hq' : e.next = some q := hq
                obtain ⟨eq1, h1, h2⟩ := WF_next_law hWF hge hq'
                obtain ⟨w, hw1, _, _, hw4⟩ := hGq q eq1 h1
                refine ⟨w, hw1, ?_⟩
                rw [hw4]
                have hqp : q ≠ prevE := by
                  intro hcc; subst hcc; exact hnp hq'
                rw [if_pos ⟨hq', hqp⟩]
            · cases hgj : getE g j with
              | none =>
                apply edgeOK_dead
                rw [hchar j, if_neg hjp, if_neg hjM, if_neg hjM1]
                by_cases hen : e.next = some j
                · rw [if_pos hen, hgj]
                  rfl
                · rw [if_neg hen]
                  exact hgj
              | some ee =>
                obtain ⟨w, hw1, hw2, hw3, hw4⟩ := hGq j ee hgj
                refine edgeOK_intro _ j _ hw1 ?_ ?_ ?_
                · obtain ⟨ec, hc1, hc2⟩ := WF_twin hWF hgj
                  obtain ⟨w2, hv1, hv2, _, _⟩ := hGq ee.twin ec hc1
                  rw [hw2]
                  exact ⟨w2, hv1, hv2.trans hc2⟩
                · intro q hq
                  rw [hw4] at hq
                  by_cases hcnd : e.next = some j ∧ j ≠ prevE
                  · rw [if_pos hcnd] at hq
                    have h := (Option.some.inj hq).symm
                    subst h
                    exact ⟨_, hsM1, hcnd.1⟩
                  · rw [if_neg hcnd] at hq
                    obtain ⟨eq1, h1, h2⟩ := WF_prev_law hWF hgj hq
                    obtain ⟨w2, hv1, _, hv3, _⟩ := hGq q eq1 h1
                    refine ⟨w2, hv1, ?_⟩
                    rw [hv3]
                    have hqp2 : q ≠ prevE := by
                      intro hcc; subst hcc
                      have he := getE_some_inj h1 hge
                      rw [he] at h2
                      exact hcnd ⟨h2, hjp⟩
                    rw [if_neg hqp2]
                    exact h2
                · intro q hq
                  rw [hw3, if_neg hjp] at hq
                  obtain ⟨eq1, h1, h2⟩ := WF_next_law hWF hgj hq
                  obtain ⟨w2, hv1, _, _, hv4⟩ := hGq q eq1 h1
                  refine ⟨w2, hv1, ?_⟩
                  rw [hv4]
                  have hcnd : ¬ (e.next = some q ∧ q ≠ prevE) := by
                    intro hcc
                    obtain ⟨x, hx1, hx2⟩ := WF_next_law hWF hge hcc.1
                    have hxe := getE_some_inj h1 hx1
                    rw [← hxe] at hx2
                    rw [h2] at hx2
                    exact hjp (Option.some.inj hx2)
                  rw [if_neg hcnd]
                  exact h2
      cases hen : e.next with
      | none =>
        refine main _ ?_
        intro j
        rw [hen]
        rw [getE_build1 g _ prevE _ _ _ (getE_lt hge) j]
        rw [if_neg (show ¬ ((none : Option Nat) = some j) by simp)]
      | some m =>
        have hmp : m ≠ prevE := by
          intro hcc
          rw [hcc] at hen
          exact hnp hen
        have hmlt : m < g.edges.length := WF_next_lt hWF hge m hen
        have hmM : m ≠ g.edges.length := Nat.ne_of_lt hmlt
        have hmM1 : m ≠ g.edges.length + 1 :=
          Nat.ne_of_lt (Nat.lt_succ_of_lt hmlt)
        refine main _ ?_
        intro j
        rw [hen]
        unfold setPrevE
        rw [getE_updE]
        by_cases hjm : j = m
        · subst hjm
          rw [if_pos rfl]
          rw [getE_build1 g _ prevE _ _ _ (getE_lt hge) j]
          rw [if_neg (fun h => hmp h), if_neg (fun h => hmM h),
            if_neg (fun h => hmM1 h), if_pos rfl]
          rw [if_neg (fun h => hmp h), if_neg (fun h => hmM h),
            if_neg (fun h => hmM1 h)]
        · rw [if_neg hjm]
          rw [getE_build1 g _ prevE _ _ _ (getE_lt hge) j]
          have hnej : ¬ ((some m : Option Nat) = some j) := by
            intro hcc
            exact hjm (Option.some.inj hcc).symm
          rw [if_neg hnej]

theorem WF_insertNode (g : STGraph) (i : Nat) (mid : Pt) (k : Int)
    (hWF : WF g) : WF (insertNode g i mid k).1 := by
  have hWF0 : WF { g with nodes := g.nodes ++ [some ⟨mid, 0, k⟩] } := hWF
  unfold insertNode
  dsimp only
  cases hs : splitEdgeAt { g with nodes := g.nodes ++ [some ⟨mid, 0, k⟩] } i
      g.nodes.length with
  | none => exact hWF
  | some x =>
    obtain ⟨g1, a, b⟩ := x
    exact WF_splitEdgeAt hWF0 hs

theorem WF_insertRib (g : STGraph) (i midN : Nat) (hWF : WF g) :
    WF (insertRib g i midN).1 := by
  unfold insertRib
  dsimp only
  by_cases hsp : (getSource g i).1 = (getSource g i).2
  · rw [if_pos hsp]
    exact hWF
  · rw [if_neg hsp]
    cases hs : splitEdgeAt g i midN with
    | none => exact hWF
    | some x =>
      obtain ⟨g1, fst, lst⟩ := x
      dsimp only
      exact WF_makeRib g1 fst _ _ _ (WF_splitEdgeAt hWF hs)

end STG

namespace STG

/-- C1: for every graph satisfying the half-edge pointer invariants
(`WF`: `twin(twin(e)) = e`, `next(prev(e)) = e`, `prev(next(e)) = e` for
every stored edge, spec §3), each of the subsystem's mutating operations
— `collapseSmallEdges`, `insertNode`, `insertRib`, and `makeRib` —
returns a graph in which every stored edge again satisfies those
pointer invariants. -/
theorem C1_pointer_invariants (g : STGraph) (hWF : WF g) (d k : Int)
    (i midN prevE : Nat) (mid sp ep : Pt) (isAdj : Bool) :
    WF (collapseSmallEdges g d) ∧ WF (insertNode g i mid k).1 ∧
    WF (insertRib g i midN).1 ∧ WF (makeRib g prevE sp ep isAdj).1 :=
  ⟨WF_collapseSmallEdges g d hWF, WF_insertNode g i mid k hWF,
   WF_insertRib g i midN hWF, WF_makeRib g prevE sp ep isAdj hWF⟩

theorem C1_pointer_invariants_witness :
    WF exRib ∧
      (WF (collapseSmallEdges exRib 5) ∧
       WF (insertNode exRib 0 (10, 10) 2).1 ∧
       WF (insertRib exRib 0 2).1 ∧
       WF (makeRib exRib 0 (-50, 0) (50, 0) false).1) :=
  ⟨by decide, C1_pointer_invariants exRib (by decide) 5 2 0 2 0 (10, 10)
    (-50, 0) (50, 0) false⟩

end STG

namespace STG

theorem removeFold_kills (l : List Nat) :
    ∀ (g0 : STGraph), ∀ a ∈ l, liveE (l.foldl removeEdgePair g0) a = false := by
  induction l with
  | nil => intro g0 a ha; cases ha
  | cons b t ih =>
    intro g0 a ha
    rw [List.foldl_cons]
    rcases List.mem_cons.mp ha with h | h
    · subst h
      exact (shrinks_removeFold (removeEdgePair g0 a) t).dead a
        (liveE_removeEdgePair_self g0 a)
    · exact ih (removeEdgePair g0 b) a h

theorem quadStep_kills (g : STGraph) (i : Nat) (q : List Nat)
    (hq : quadSlotsOf g i = some q) :
    ∀ a ∈ q, liveE (quadStep g i) a = false := by
  unfold quadStep
  rw [hq]
  dsimp only
  intro a ha
  have h1 : liveE (q.foldl removeEdgePair g) a = false :=
    removeFold_kills q g a ha
  exact ((shrinks_nodeMergeFold _ _ _).trans (shrinks_cleanup _)).dead a h1

/-- C2, corrected: after `collapseSmallEdges(d)` every remaining live
edge shorter than `d` is protected (support pair) and its enclosing
quad is not fully collapsible; and the quad step that handles a
protected quad removes all four of the quad's edges atomically.  The
original claim's universal "no quad is left partially collapsed" is
refuted by `C2_counterexample`: a protected quad can lose its
non-protected short edges to individual collapse steps while its
support edge survives. -/
theorem C2_collapse_amended (g : STGraph) (d : Int) :
    (∀ j, liveE (collapseSmallEdges g d) j = true →
        shortE (collapseSmallEdges g d) d j = true →
        protPair (collapseSmallEdges g d) j = true ∧
        quadOK (collapseSmallEdges g d) d j = false) ∧
    (∀ i q, quadSlotsOf g i = some q →
        ∀ a, a ∈ q → liveE (quadStep g i) a = false) := by
  constructor
  · intro j hlive hshort
    have hfix := collapseSmallEdges_fixed g d
    have hall := (findEligible_none_iff _ d).mp hfix j (liveE_lt hlive)
    rw [hlive, hshort] at hall
    simp only [Bool.true_and, Bool.or_eq_false_iff, Bool.not_eq_false] at hall
    exact ⟨by simpa using hall.1, hall.2⟩
  · intro i q hq a ha
    exact quadStep_kills g i q hq a ha

theorem collapseFuel_step_false {g : STGraph} {d : Int} {i : Nat} (f : Nat)
    (h : findEligible g d = some (i, false)) :
    collapseFuel (f + 1) g d = collapseFuel f (singleStep g i) d := by
  have h1 : collapseFuel (f + 1) g d =
      (match findEligible g d with
        | none => g
        | some (j, false) => collapseFuel f (singleStep g j) d
        | some (j, true) => collapseFuel f (quadStep g j) d) := rfl
  rw [h1, h]

theorem collapseSmallEdges_exProt : collapseSmallEdges exProt 5 = exProt := by
  unfold collapseSmallEdges
  exact collapseFuel_none (by decide) _

set_option maxRecDepth 4000 in
theorem C2_collapse_amended_witness :
    liveE (collapseSmallEdges exProt 5) 0 = true ∧
    shortE (collapseSmallEdges exProt 5) 5 0 = true ∧
    (protPair (collapseSmallEdges exProt 5) 0 = true ∧
     quadOK (collapseSmallEdges exProt 5) 5 0 = false) ∧
    quadSlotsOf exQuad 0 = some [0, 2, 4, 6] ∧
    liveE (quadStep exQuad 0) 6 = false :=
  ⟨by rw [collapseSmallEdges_exProt]; decide,
   by rw [collapseSmallEdges_exProt]; decide,
   (C2_collapse_amended exProt 5).1 0
     (by rw [collapseSmallEdges_exProt]; decide)
     (by rw [collapseSmallEdges_exProt]; decide),
   by decide,
   (C2_collapse_amended exQuad 5).2 0 [0, 2, 4, 6] (by decide) 6 (by decide)⟩

set_option maxRecDepth 4000 in
theorem collapseSmallEdges_exQuad :
    collapseSmallEdges exQuad 5 = singleStep exQuad 6 := by
  unfold collapseSmallEdges
  have h9 : liveCount exQuad + 1 = 9 := by decide
  rw [h9, collapseFuel_step_false 8
    (show findEligible exQuad 5 = some (6, false) by decide)]
  exact collapseFuel_none (by decide) 8

set_option maxRecDepth 4000 in
/-- C2 counterexample: in `exQuad` the edge in slot 0 is a protected
(support) edge of length 2 < 5 whose enclosing quad is the face
`[0, 2, 4, 6]`; after `collapseSmallEdges` with snap distance 5 the
protected edge 0 is still alive while quad edge 6 has been removed, so
this protected quad neither collapsed fully nor kept all four of its
edges: it is left partially collapsed, contradicting the claim. -/
theorem C2_counterexample :
    quadSlotsOf exQuad 0 = some [0, 2, 4, 6] ∧
    protPair exQuad 0 = true ∧
    shortE exQuad 5 0 = true ∧
    liveE (collapseSmallEdges exQuad 5) 0 = true ∧
    liveE (collapseSmallEdges exQuad 5) 6 = false := by
  refine ⟨by decide, by decide, by decide, ?_, ?_⟩
  · rw [collapseSmallEdges_exQuad]
    decide
  · rw [collapseSmallEdges_exQuad]
    decide

end STG
